import Mathlib

/-!
Verification development for the gold-news-dashboard news pipeline
(`get_news.py`).  The Python source is shallowly embedded: every pure
function is translated to a Lean function over `List Char` / `String`,
stateful persistence is explicit state passing over a `Store` value, and
Python exceptions are `Except` / `Option` results.  Library routines the
source calls (`html.unescape`, `html.parser` via BeautifulSoup,
`datetime.strptime`) are embedded at the level of detail the source
exercises, as documented at each definition.
-/

namespace GoldNews

/-- Characters Python's `\s` matches (ASCII part; the source's inputs and
outputs only ever involve these whitespace characters). -/
def isPySpace (c : Char) : Bool :=
  c = ' ' || c = '\t' || c = '\n' || c = '\r' || c = Char.ofNat 11 || c = Char.ofNat 12

/-- Characters matched by the source's control-character regex
`[\x00-\x1f\x7f-\x9f]` (get_news.py line 39). -/
def isCtrl (c : Char) : Bool :=
  c.toNat ≤ 0x1f || (0x7f ≤ c.toNat && c.toNat ≤ 0x9f)

/-- The HTML entity subset the embedding resolves: `&amp; &lt; &gt;
&quot; &#39;` together with the semicolon-less named forms CPython's
`html.unescape` also accepts (`&amp` etc.), longest name first exactly
as the stdlib's longest-prefix lookup resolves them.  Entities outside
this subset are left unchanged; the source never produces them in the
scenarios verified here. -/
def entities : List (List Char × Char) :=
  [(['a', 'm', 'p', ';'], '&'), (['a', 'm', 'p'], '&'),
   (['l', 't', ';'], '<'), (['l', 't'], '<'),
   (['g', 't', ';'], '>'), (['g', 't'], '>'),
   (['q', 'u', 'o', 't', ';'], Char.ofNat 34), (['q', 'u', 'o', 't'], Char.ofNat 34),
   (['#', '3', '9', ';'], Char.ofNat 39)]

/-- Resolve an entity reference starting right after a `&`: the
replacement character and the input remaining after the reference. -/
def findEnt (rest : List Char) : Option (Char × List Char) :=
  match entities.find? (fun e => e.1.isPrefixOf rest) with
  | some e => some (e.2, rest.drop e.1.length)
  | none => none

/-- One pass of `html.unescape` (get_news.py line 34) over the entity
subset, replacement text not rescanned within the pass (as with
`re.sub`).  Fuel-indexed for structural recursion; at least one
character is consumed per step, so fuel `length` suffices. -/
def unescU : Nat → List Char → List Char
  | 0, l => l
  | _ + 1, [] => []
  | fuel + 1, c :: rest =>
    if c = '&' then
      match findEnt rest with
      | some (d, r) => d :: unescU fuel r
      | none => '&' :: unescU fuel rest
    else c :: unescU fuel rest

/-- One `html.unescape` pass. -/
def unescapeOnce (l : List Char) : List Char := unescU l.length l

/-- The `while True: unescape until fixed point` loop of
`ultimate_clean_text` (get_news.py lines 33-37), run with explicit fuel.
Each productive pass strictly shrinks the string, so `length + 1` fuel
always reaches the fixed point (proved below as the termination claim). -/
def unescapeLoop : Nat → List Char → List Char
  | 0, l => l
  | fuel + 1, l =>
    let l' := unescapeOnce l
    if l' = l then l else unescapeLoop fuel l'

/-- The fixed point of repeated HTML-unescaping, as computed by the
source's loop. -/
def unescapeFix (l : List Char) : List Char :=
  unescapeLoop (l.length + 1) l

/-- Does a `<` open a markup construct for CPython's `html.parser`
(start tag `<letter`, end tag `</`, declaration/comment `<!`,
processing instruction `<?`)?  Any other `<` is literal text data. -/
def isTagStart : List Char → Bool
  | [] => false
  | c :: _ => c.isAlpha || c = '/' || c = '!' || c = '?'

/-- Skip a markup construct: consume up to and including the next `>`.
`none` when the construct is unterminated (end of input reached). -/
def dropTag : List Char → Option (List Char)
  | [] => none
  | c :: rest => if c = '>' then some rest else dropTag rest

/-- Text segments (`NavigableString`s) that BeautifulSoup's
`html.parser` backend produces: consecutive character data accumulates
into one segment, flushed at each tag; a `<` that opens no construct is
literal data; an unterminated construct at end of input is emitted as
data (CPython `HTMLParser.goahead` with `end=True`).  Character
references inside data are already resolved by the caller: in
`ultimate_clean_text` the input is an `unescapeFix` fixed point, on
which the parser's own `convert_charrefs` pass is the identity.
Fuel-indexed for structural recursion; fuel `length + 1` suffices. -/
def bsSegsF : Nat → List Char → List Char → List (List Char)
  | 0, l, cur => [cur ++ l]
  | fuel + 1, l, cur =>
    match l with
    | [] => [cur]
    | c :: rest =>
      if c = '<' then
        if isTagStart rest then
          match dropTag rest with
          | some rest' => cur :: bsSegsF fuel rest' []
          | none => [cur ++ c :: rest]
        else bsSegsF fuel rest (cur ++ [c])
      else bsSegsF fuel rest (cur ++ [c])

/-- Python `str.strip()` on the whitespace the pipeline can produce. -/
def pyStrip (l : List Char) : List Char :=
  ((l.dropWhile isPySpace).reverse.dropWhile isPySpace).reverse

/-- The right-side strip (the second half of `pyStrip`). -/
def trimR (l : List Char) : List Char := (l.reverse.dropWhile isPySpace).reverse

/-- A string in the whitespace collapser's image: spaces are its only
whitespace characters and no two adjacent characters are both
whitespace. -/
def Collapsed (l : List Char) : Prop :=
  (∀ c ∈ l, isPySpace c = true → c = ' ')
  ∧ l.Chain' (fun a b => ¬(isPySpace a = true ∧ isPySpace b = true))

/-- `BeautifulSoup(text, "html.parser").get_text(strip=True)`
(get_news.py line 38): each text segment stripped, all concatenated. -/
def bsText (l : List Char) : List Char :=
  ((bsSegsF (l.length + 1) l []).map pyStrip).flatten

/-- `re.sub(r'\s+', ' ', text)` (get_news.py line 40): every maximal
whitespace run becomes a single space. -/
def collapseRuns : List Char → List Char
  | [] => []
  | [c] => if isPySpace c then [' '] else [c]
  | c :: d :: rest =>
    if isPySpace c then
      if isPySpace d then collapseRuns (d :: rest)
      else ' ' :: collapseRuns (d :: rest)
    else c :: collapseRuns (d :: rest)

/-- `re.sub(r'[\x00-\x1f\x7f-\x9f]', '', text)` (get_news.py line 39). -/
def removeCtrl (l : List Char) : List Char :=
  l.filter (fun c => !(isCtrl c))

/-- `ultimate_clean_text` (get_news.py lines 29-41) on string input:
unescape to a fixed point, strip markup via the html parser, drop
control characters, collapse whitespace and trim.  (The source returns
`""` for non-string input; the claims quantify over strings.) -/
def ultimate_clean_text (s : String) : String :=
  String.mk (pyStrip (collapseRuns (removeCtrl (bsText (unescapeFix s.data)))))

/-! ## RelativeTimeParser: `parse_sina_time` (get_news.py lines 43-60)

`datetime` values are embedded at minute granularity: every timestamp the
parser builds has zero seconds, and a zero-second timestamp compares
greater than `now` exactly when it does at minute granularity, so the
source's single `parsed_dt > now` comparison is preserved. -/

/-- A `datetime.datetime` value at minute granularity. -/
structure PyDateTime where
  year : Nat
  month : Nat
  day : Nat
  hour : Nat
  minute : Nat
deriving DecidableEq, Repr

/-- Gregorian leap year, as `datetime` computes it. -/
def isLeap (y : Nat) : Bool :=
  y % 4 = 0 && (y % 100 ≠ 0 || y % 400 = 0)

/-- Days in a month, for `datetime`'s constructor validation. -/
def daysInMonth (y m : Nat) : Nat :=
  if m = 2 then (if isLeap y then 29 else 28)
  else if m = 4 || m = 6 || m = 9 || m = 11 then 30
  else 31

/-- `datetime(year, month, day, hour, minute)`: `ValueError` (`none`)
outside the validated ranges, mirroring `datetime`'s constructor
(`MINYEAR = 1`, `MAXYEAR = 9999`). -/
def mkValid? (y m d h mi : Nat) : Option PyDateTime :=
  if 1 ≤ y && y ≤ 9999 && 1 ≤ m && m ≤ 12 && 1 ≤ d && d ≤ daysInMonth y m
      && h ≤ 23 && mi ≤ 59 then
    some { year := y, month := m, day := d, hour := h, minute := mi }
  else none

/-- `datetime` comparison `a < b` (lexicographic on the fields). -/
def dtLt (a b : PyDateTime) : Bool :=
  a.year < b.year
  || (a.year = b.year && (a.month < b.month
  || (a.month = b.month && (a.day < b.day
  || (a.day = b.day && (a.hour < b.hour
  || (a.hour = b.hour && a.minute < b.minute)))))))

/-- Cumulative days before month `m` in a non-leap year. -/
def monthDaysBefore : Nat → Nat
  | 1 => 0 | 2 => 31 | 3 => 59 | 4 => 90 | 5 => 120 | 6 => 151
  | 7 => 181 | 8 => 212 | 9 => 243 | 10 => 273 | 11 => 304 | _ => 334

/-- Days from 0001-01-01 to the given (valid) Gregorian date. -/
def daysSinceCE (y m d : Nat) : Nat :=
  365 * (y - 1) + (y - 1) / 4 - (y - 1) / 100 + (y - 1) / 400
    + monthDaysBefore m + (if isLeap y && m ≥ 3 then 1 else 0) + (d - 1)

/-- Minutes from 0001-01-01T00:00 (= `datetime.min`). -/
def toMin (t : PyDateTime) : Nat :=
  (daysSinceCE t.year t.month t.day * 24 + t.hour) * 60 + t.minute

/-- Gregorian date from a day count since 0001-01-01 (era-based civil
conversion). -/
def civilFromDays (z : Nat) : Nat × Nat × Nat :=
  let w := z + 306
  let era := w / 146097
  let doe := w % 146097
  let yoe := (doe - doe / 1460 + doe / 36524 - doe / 146096) / 365
  let y := yoe + era * 400
  let doy := doe - (365 * yoe + yoe / 4 - yoe / 100)
  let mp := (5 * doy + 2) / 153
  let d := doy - (153 * mp + 2) / 5 + 1
  let m := if mp < 10 then mp + 3 else mp - 9
  (if m ≤ 2 then y + 1 else y, m, d)

/-- Timestamp from a minute count since 0001-01-01T00:00. -/
def fromMin (t : Nat) : PyDateTime :=
  let c := civilFromDays (t / 1440)
  { year := c.1, month := c.2.1, day := c.2.2, hour := t % 1440 / 60, minute := t % 60 }

/-- `timedelta(minutes = n)` overflows (`OverflowError`) when the
normalized day count exceeds `timedelta`'s 999,999,999-day bound. -/
def tdMinutesBound : Nat := 1440000000000

/-- `now - timedelta(minutes = n)`: `none` models the `OverflowError`
raised when the result falls below `datetime.min`. -/
def minuteSub? (now : PyDateTime) (n : Nat) : Option PyDateTime :=
  if toMin now < n then none else some (fromMin (toMin now - n))

/-- ASCII digit test (`\d` on the relevant inputs), phrased on code
points (`'0'` is 48, `'9'` is 57). -/
def isDigitC (c : Char) : Bool := 48 ≤ c.toNat && c.toNat ≤ 57

/-- Numeric value of a digit character. -/
def dval (c : Char) : Nat := c.toNat - 48

/-- Read a maximal digit run, accumulating its value (`int(...)`). -/
def readNum : List Char → Nat → Nat
  | [], acc => acc
  | c :: rest, acc => if isDigitC c then readNum rest (acc * 10 + dval c) else acc

/-- `int(re.search(r'(\d+)', s).group(1))` (get_news.py line 49): the
first maximal digit run; `none` models the `AttributeError` when the
text has no digit. -/
def firstNum : List Char → Option Nat
  | [] => none
  | c :: rest => if isDigitC c then some (readNum rest (dval c)) else firstNum rest

/-- Python `str.split(" ")`: split at every single space, keeping empty
pieces (so `"a  b"` gives three pieces and `""` gives one empty
piece). -/
def splitSpace : List Char → List (List Char)
  | [] => [[]]
  | c :: rest =>
    if c = ' ' then [] :: splitSpace rest
    else
      match splitSpace rest with
      | t :: ts => (c :: t) :: ts
      | [] => [[c]]

/-- Python `in` on strings: contiguous-substring test. -/
def subMem (pat : List Char) : List Char → Bool
  | [] => pat.isEmpty
  | c :: rest => pat.isPrefixOf (c :: rest) || subMem pat rest

/-! `datetime.strptime(s, "%Y-%m-%d %H:%M")`, embedded as CPython's
`_strptime` compiles it: `%Y` is four digits, `%m` is `1[0-2]|0[1-9]|[1-9]`,
`%d` is `3[01]|[12]\d|0[1-9]|[1-9]`, `%H` is `2[0-3]|[0-1]\d|\d`,
`%M` is `[0-5]\d|\d`, a literal space matches a whitespace run, the
whole string must be consumed, and the matched fields then pass through
`datetime`'s constructor.  Continuation-passing `Option` alternatives
reproduce the regex's left-to-right backtracking. -/

/-- `%Y`: exactly four digits. -/
def pY4 (k : List Char → Nat → Option α) : List Char → Option α
  | a :: b :: c :: d :: rest =>
    if isDigitC a && isDigitC b && isDigitC c && isDigitC d then
      k rest (dval a * 1000 + dval b * 100 + dval c * 10 + dval d)
    else none
  | _ => none

/-- A literal character of the format string. -/
def pLit (ch : Char) (k : List Char → Option α) : List Char → Option α
  | c :: rest => if c = ch then k rest else none
  | [] => none

/-- A whitespace run (`\s+`), matched greedily. -/
def pWS (k : List Char → Option α) : List Char → Option α
  | c :: rest => if isPySpace c then k (rest.dropWhile isPySpace) else none
  | [] => none

/-- A one-character regex alternative: consume `c` when `cond c` holds. -/
def alt1 (cond : Char → Bool) (k : List Char → Nat → Option α) : List Char → Option α
  | c :: rest => if cond c then k rest (dval c) else none
  | [] => none

/-- A two-character regex alternative: consume `c d` when `cond c d`
holds, yielding the two-digit value. -/
def alt2 (cond : Char → Char → Bool) (k : List Char → Nat → Option α) :
    List Char → Option α
  | c :: d :: rest => if cond c d then k rest (dval c * 10 + dval d) else none
  | _ => none

/-- `%m`: `1[0-2]|0[1-9]|[1-9]` (conditions stated on digit values,
which coincides with the character-range regex classes). -/
def pMonth (k : List Char → Nat → Option α) (cs : List Char) : Option α :=
  alt2 (fun c d => isDigitC c && isDigitC d && dval c = 1 && dval d ≤ 2) k cs
  <|> alt2 (fun c d => isDigitC c && isDigitC d && dval c = 0 && 1 ≤ dval d) k cs
  <|> alt1 (fun c => isDigitC c && 1 ≤ dval c) k cs

/-- `%d`: `3[01]|[12]\d|0[1-9]|[1-9]`. -/
def pDay (k : List Char → Nat → Option α) (cs : List Char) : Option α :=
  alt2 (fun c d => isDigitC c && isDigitC d && dval c = 3 && dval d ≤ 1) k cs
  <|> alt2 (fun c d => isDigitC c && isDigitC d && 1 ≤ dval c && dval c ≤ 2) k cs
  <|> alt2 (fun c d => isDigitC c && isDigitC d && dval c = 0 && 1 ≤ dval d) k cs
  <|> alt1 (fun c => isDigitC c && 1 ≤ dval c) k cs

/-- `%H`: `2[0-3]|[0-1]\d|\d`. -/
def pHour (k : List Char → Nat → Option α) (cs : List Char) : Option α :=
  alt2 (fun c d => isDigitC c && isDigitC d && dval c = 2 && dval d ≤ 3) k cs
  <|> alt2 (fun c d => isDigitC c && isDigitC d && dval c ≤ 1) k cs
  <|> alt1 isDigitC k cs

/-- `%M`: `[0-5]\d|\d`. -/
def pMin (k : List Char → Nat → Option α) (cs : List Char) : Option α :=
  alt2 (fun c d => isDigitC c && isDigitC d && dval c ≤ 5) k cs
  <|> alt1 isDigitC k cs

/-- The compiled regex for `"%Y-%m-%d %H:%M"`, fully anchored. -/
def strptimeFull (s : List Char) : Option (Nat × Nat × Nat × Nat × Nat) :=
  pY4 (fun s1 y =>
    pLit '-' (fun s2 =>
      pMonth (fun s3 m =>
        pLit '-' (fun s4 =>
          pDay (fun s5 d =>
            pWS (fun s6 =>
              pHour (fun s7 h =>
                pLit ':' (fun s8 =>
                  pMin (fun s9 mi =>
                    if s9.isEmpty then some (y, m, d, h, mi) else none) s8) s7) s6) s5) s4) s3) s2) s1) s

/-- `datetime.strptime(s, "%Y-%m-%d %H:%M")`: regex match plus
constructor validation; `none` is `ValueError`. -/
def strptime? (s : List Char) : Option PyDateTime :=
  (strptimeFull s).bind fun r => mkValid? r.1 r.2.1 r.2.2.1 r.2.2.2.1 r.2.2.2.2

/-- Digit character for `k % 10` (zero-padded formatting). -/
def dChar (k : Nat) : Char := Char.ofNat (48 + k % 10)

/-- `%02d`. -/
def pad2 (n : Nat) : List Char := [dChar (n / 10), dChar n]

/-- `%Y` in `strftime` / `str(year)` for four-digit years. -/
def pad4 (n : Nat) : List Char := [dChar (n / 1000), dChar (n / 100), dChar (n / 10), dChar n]

/-- `now.strftime('%Y-%m-%d')` (get_news.py line 53). -/
def datePrefix (now : PyDateTime) : List Char :=
  pad4 now.year ++ '-' :: pad2 now.month ++ '-' :: pad2 now.day

/-- A Python value passed where a string is expected: the source guards
with `isinstance(time_str, str)`. -/
inductive PyStr where
  | str (s : String)
  | notStr
deriving DecidableEq, Repr

/-- `parse_sina_time` (get_news.py lines 43-60).  `Except.error` models
an exception that the function's `except (ValueError, AttributeError)`
clause does NOT catch and therefore propagates (`OverflowError` from
`timedelta` construction or `datetime` subtraction); every caught parse
failure yields `.ok now`. -/
def parse_sina_time (t : PyStr) (now : PyDateTime) : Except String PyDateTime :=
  match t with
  | .notStr => .ok now
  | .str s =>
    if subMem "分钟前".data s.data then
      match firstNum s.data with
      | none => .ok now
      | some n =>
        if tdMinutesBound ≤ n then .error "OverflowError"
        else
          match minuteSub? now n with
          | some d => .ok d
          | none => .error "OverflowError"
    else if subMem "今天".data s.data then
      let timePart := (splitSpace s.data).getLastD []
      match strptime? (datePrefix now ++ ' ' :: timePart) with
      | some d => .ok d
      | none => .ok now
    else
      match strptime? ((Nat.repr now.year).data ++ '-' :: s.data) with
      | some d =>
        if dtLt now d then
          match mkValid? (now.year - 1) d.month d.day d.hour d.minute with
          | some d' => .ok d'
          | none => .ok now
        else .ok d
      | none => .ok now

/-! ## ResultExtractor: `fetch_news` (get_news.py lines 68-102)

Network fetching and HTML tree search are environment inputs: a page is
either a fetch failure / non-200 response (contributing nothing) or a
list of result blocks, each block carrying the optional raw strings the
source reads out of the `div.box-result` element.  Sentiment scoring
(`SnowNLP(text).sentiments`) is an external capability, passed in as an
opaque scoring function. -/

/-- `KEYWORDS` (get_news.py line 15). -/
def KEYWORDS : List String :=
  ["沪金", "黄金期货", "COMEX黄金", "实物黄金", "黄金ETF", "美联储", "利率"]

/-- `CRAWL_INTERVAL_HOURS` as seconds. -/
def crawlIntervalSecs : Int := 4 * 3600

/-- One candidate record as built by `fetch_news` (get_news.py line 96):
`url` is `None` when the title had no anchor element. -/
structure Item where
  title : String
  summary : String
  time : PyDateTime
  url : Option String
  sentiment : String
deriving DecidableEq, Repr

/-- One `div.box-result` block: the optional text of `h2`, `p.content`
and `span.fgray_time`, plus the optional `href` of the title's anchor
(`None` both when the title or the anchor is missing). -/
structure ResultBlock where
  titleTag : Option String
  summaryTag : Option String
  timeTag : Option String
  linkHref : Option String
deriving DecidableEq, Repr

/-- The per-block body of `fetch_news`'s result loop (get_news.py lines
77-96): clean title and summary, take the link, parse the time, then
keep the block only if both cleaned strings are non-empty and the
combined text contains a tracked keyword.  `.error` models an exception
escaping the block (only `parse_sina_time` can raise here), which the
page-level `except Exception` then catches. -/
def processBlock (score : String → String) (now : PyDateTime) (b : ResultBlock) :
    Except String (Option Item) :=
  let title := ultimate_clean_text (b.titleTag.getD "")
  let summary := ultimate_clean_text (b.summaryTag.getD "")
  let link := b.linkHref
  match parse_sina_time (match b.timeTag with | some t => .str t | none => .notStr) now with
  | .error e => .error e
  | .ok parsed =>
    .ok (if title ≠ "" && summary ≠ "" then
      let content := title ++ summary
      if KEYWORDS.any (fun kw => subMem kw.data content.data) then
        some { title := title, summary := summary, time := parsed,
               url := link, sentiment := score content }
      else none
    else none)

/-- The result loop over one page's blocks: an exception aborts the rest
of the page (caught by `except Exception` at get_news.py line 100),
keeping the records accumulated so far. -/
def pageNews (score : String → String) (now : PyDateTime) : List ResultBlock → List Item
  | [] => []
  | b :: rest =>
    match processBlock score now b with
    | .error _ => []
    | .ok none => pageNews score now rest
    | .ok (some it) => it :: pageNews score now rest

/-- `fetch_news(keyword, pages)` (get_news.py lines 68-102): each page is
`none` on a fetch failure or non-200 status (skipped), otherwise its
result blocks are processed in order.  The `keyword` argument only
selects the search URL; it plays no role in filtering. -/
def fetch_news (keyword : String) (score : String → String) (now : PyDateTime)
    (pages : List (Option (List ResultBlock))) : List Item :=
  let _ := keyword
  (pages.map fun p =>
    match p with
    | none => []
    | some blocks => pageNews score now blocks).flatten

/-! ## PersistenceStore: `save_news_to_csv` (get_news.py lines 104-127)

The CSV file is embedded as `Option (List StoredItem × Int)`: `none`
when the file does not exist, otherwise the stored rows together with
the file's modification time (seconds).  Opening in append mode writes
the header row when the file is new, which creates the file and stamps
its mtime even when no records are appended. -/

/-- A row as it exists on disk: `csv.DictWriter` writes a `None` url as
the empty string. -/
structure StoredItem where
  title : String
  summary : String
  time : PyDateTime
  url : String
  sentiment : String
deriving DecidableEq, Repr

/-- Row written for a candidate. -/
def toStored (it : Item) : StoredItem :=
  { title := it.title, summary := it.summary, time := it.time,
    url := it.url.getD "", sentiment := it.sentiment }

/-- The persisted store: `none` = no file. -/
abbrev Store : Type := Option (List StoredItem × Int)

/-- Urls already durable: empty when no file exists (get_news.py lines
114-120). -/
def existingUrls (st : Store) : List String :=
  match st with
  | none => []
  | some (rows, _) => rows.map (·.url)

/-- `item.get('url') not in existing_urls` (negated): a `None` url is
never a member of a set of strings. -/
def urlKnown (u : Option String) (ex : List String) : Bool :=
  match u with
  | some s => ex.contains s
  | none => false

/-- The filtered set `new_items` (get_news.py line 121). -/
def newItems (news : List Item) (st : Store) : List Item :=
  news.filter fun it => !(urlKnown it.url (existingUrls st))

/-- `save_news_to_csv(news_list, filepath)` (get_news.py lines 104-127),
returning `(new_items_count, store after the call)` at mtime `now`.
When the file does not exist the append-mode open plus `writeheader()`
creates it (mtime stamped) even if `new_items` is empty; when it exists
and `new_items` is empty nothing is written and the mtime is
unchanged. -/
def save_news_to_csv (news : List Item) (st : Store) (now : Int) : Nat × Store :=
  let ni := newItems news st
  match st with
  | none => (ni.length, some (ni.map toStored, now))
  | some (rows, m) =>
    if ni.isEmpty then (0, some (rows, m))
    else (ni.length, some (rows ++ ni.map toStored, now))

/-! ## CrawlOrchestrator: `run_news_crawl` (get_news.py lines 130-156) -/

/-- Insert into a Python dict modelled as an association list: key order
is first occurrence, value is last written. -/
def dictInsert (d : List (String × Item)) (k : String) (v : Item) : List (String × Item) :=
  if d.any (fun p => p.1 = k) then
    d.map fun p => if p.1 = k then (k, v) else p
  else d ++ [(k, v)]

/-- `{item["url"]: item for item in all_news if item.get("url")}.values()`
(get_news.py line 150): drops items whose url is `None` or `""` (falsy),
dedupes by url, last seen wins, first-occurrence order. -/
def uniqueNews (items : List Item) : List Item :=
  (items.foldl (fun d it =>
    match it.url with
    | none => d
    | some u => if u = "" then d else dictInsert d u it) []).map (·.2)

/-- The "too soon" message (get_news.py lines 135-138): remaining time's
`timedelta.seconds` component split by `divmod` into hours and
minutes. -/
def retryMsg (delta : Int) : String :=
  let remSecs := ((crawlIntervalSecs - delta).toNat) % 86400
  "还没到4小时，请在 " ++ toString (remSecs / 3600) ++ " 小时 "
    ++ toString (remSecs % 3600 / 60) ++ " 分钟后重试。"

/-- Fetch, merge and persist phases of `run_news_crawl` (get_news.py
lines 140-156): runs after the gate admits the crawl. -/
def runBody (fetched : List (List Item)) (st : Store) (now : Int) : String × Nat × Store :=
  let allNews := fetched.flatten
  if allNews.isEmpty then ("未能抓取到任何新闻。", 0, st)
  else
    let unique := uniqueNews allNews
    let r := save_news_to_csv unique st now
    if 0 < r.1 then
      ("任务完成，成功获取 " ++ toString r.1 ++ " 条新新闻！", r.1, r.2)
    else ("任务完成，但未发现任何新内容。", 0, r.2)

/-- `run_news_crawl()` (get_news.py lines 130-156) with the fetch phase's
output supplied as `fetched` (one list per keyword, as produced by
`fetch_news`); returns `(message, count, store after the call)`. -/
def run_news_crawl (fetched : List (List Item)) (st : Store) (now : Int) :
    String × Nat × Store :=
  match st with
  | some (rows, m) =>
    if now - m < crawlIntervalSecs then
      (retryMsg (now - m), 0, some (rows, m))
    else runBody fetched (some (rows, m)) now
  | none => runBody fetched none now

/-! ## Auxiliary definitions used by the verification statements -/

/-- Rows durably stored (empty when no file exists). -/
def storeRows (st : Store) : List StoredItem :=
  match st with
  | none => []
  | some (rows, _) => rows

/-- Urls of a candidate list, in order, `None` links excluded. -/
def candUrls (l : List Item) : List String := l.filterMap (·.url)

/-- `now` is a value `datetime` could actually hold (what
`datetime.now()` returns always is). -/
def ValidDT (d : PyDateTime) : Prop :=
  mkValid? d.year d.month d.day d.hour d.minute = some d

/-- An anchored `%H:%M` match (the tail of the source's
`"%Y-%m-%d %H:%M"` format). -/
def hmFull (cs : List Char) : Option (Nat × Nat) :=
  pHour (fun s7 h =>
    pLit ':' (fun s8 =>
      pMin (fun s9 mi => if s9.isEmpty then some (h, mi) else none) s8) s7) cs

/-- The last space-separated token of `s`, as `datetime.strptime`
consumes it after the format's whitespace: leading whitespace eaten by
`\s+`, then an anchored `%H:%M`. -/
def lastHM (s : String) : Option (Nat × Nat) :=
  hmFull (((splitSpace s.data).getLastD []).dropWhile isPySpace)

/-- An anchored `%m-%d %H:%M` match (what rule 3 demands of the text
after the injected year). -/
def mdhmFull (cs : List Char) : Option (Nat × Nat × Nat × Nat) :=
  pMonth (fun s3 m =>
    pLit '-' (fun s4 =>
      pDay (fun s5 d =>
        pWS (fun s6 =>
          pHour (fun s7 h =>
            pLit ':' (fun s8 =>
              pMin (fun s9 mi =>
                if s9.isEmpty then some (m, d, h, mi) else none) s8) s7) s6) s5) s4) s3) cs

/-- Decidable equality of embedded exception results, so witnesses can
be checked by evaluation. -/
instance exceptDecEq {ε α : Type} [DecidableEq ε] [DecidableEq α] :
    DecidableEq (Except ε α)
  | .error e, .error f => decidable_of_iff (e = f) (by simp)
  | .error _, .ok _ => isFalse (by simp)
  | .ok _, .error _ => isFalse (by simp)
  | .ok x, .ok y => decidable_of_iff (x = y) (by simp)

/-- A fixed reference instant used to instantiate witnesses. -/
def sampleNow : PyDateTime := ⟨2024, 6, 1, 10, 0⟩

/-- A result block whose title has no anchor element: the extracted
candidate has `url = None`. -/
def blockNoLink : ResultBlock :=
  { titleTag := some "黄金期货上涨", summaryTag := some "美联储观察", timeTag := none,
    linkHref := none }

/-- The candidate `fetch_news` builds from `blockNoLink`. -/
def itemNoLink : Item :=
  { title := "黄金期货上涨", summary := "美联储观察", time := sampleNow, url := none,
    sentiment := "0.5" }

/-- A block with a keyword-bearing title but an empty summary. -/
def blockTitleOnly : ResultBlock :=
  { titleTag := some "黄金期货上涨", summaryTag := some "", timeTag := none,
    linkHref := some "http://news.example/a" }

/-- A block whose title cleans to the empty string. -/
def blockEmptyTitle : ResultBlock :=
  { titleTag := some "", summaryTag := some "美联储观察", timeTag := none,
    linkHref := none }

/-- A linked result block, for end-to-end witnesses. -/
def blockLinked : ResultBlock :=
  { titleTag := some "黄金期货上涨", summaryTag := some "美联储观察", timeTag := none,
    linkHref := some "http://news.example/a" }

/-- The candidate `fetch_news` builds from `blockLinked`. -/
def itemLinked : Item :=
  { title := "黄金期货上涨", summary := "美联储观察", time := sampleNow,
    url := some "http://news.example/a", sentiment := "0.5" }

/-- A candidate sharing `itemLinked`'s url with different content. -/
def itemDup : Item :=
  { title := "黄金期货下跌", summary := "美联储降息", time := sampleNow,
    url := some "http://news.example/a", sentiment := "0.4" }

/-- A candidate with a second, distinct url. -/
def itemB2 : Item :=
  { title := "沪金午评", summary := "利率观察", time := sampleNow,
    url := some "http://news.example/b", sentiment := "0.6" }

/-! # Theorems

Helper lemmas first, then one theorem per claim (with witnesses and
counterexamples as needed). -/

/-- An item emitted by the per-block body carries the cleaned title and
summary, the block's link, non-empty title and summary, and a tracked
keyword inside the combined text. -/
theorem processBlock_emitted {score : String → String} {now : PyDateTime}
    {b : ResultBlock} {it : Item}
    (h : processBlock score now b = .ok (some it)) :
    it.title = ultimate_clean_text (b.titleTag.getD "")
    ∧ it.summary = ultimate_clean_text (b.summaryTag.getD "")
    ∧ it.url = b.linkHref
    ∧ it.title ≠ "" ∧ it.summary ≠ ""
    ∧ KEYWORDS.any (fun kw => subMem kw.data (it.title ++ it.summary).data) = true := by
  unfold processBlock at h
  cases hq : parse_sina_time (match b.timeTag with | some t => .str t | none => .notStr) now with
  | error e => rw [hq] at h; exact absurd h (by simp)
  | ok parsed =>
    rw [hq] at h
    simp only [Except.ok.injEq] at h
    split at h
    · split at h
      · next hne hkw =>
        cases h
        have hne2 : ¬ultimate_clean_text (b.titleTag.getD "") = ""
            ∧ ¬ultimate_clean_text (b.summaryTag.getD "") = "" := by simpa using hne
        exact ⟨rfl, rfl, rfl, hne2.1, hne2.2, hkw⟩
      · exact absurd h (by simp)
    · exact absurd h (by simp)

/-- A record in a page's output comes from some block of that page. -/
theorem pageNews_mem {score : String → String} {now : PyDateTime}
    {blocks : List ResultBlock} {it : Item}
    (h : it ∈ pageNews score now blocks) :
    ∃ b ∈ blocks, processBlock score now b = .ok (some it) := by
  induction blocks with
  | nil => simp [pageNews] at h
  | cons b rest ih =>
    rw [pageNews] at h
    cases hp : processBlock score now b with
    | error e => rw [hp] at h; simp at h
    | ok o =>
      rw [hp] at h
      cases o with
      | none =>
        obtain ⟨b', hb', h'⟩ := ih h
        exact ⟨b', List.mem_cons_of_mem _ hb', h'⟩
      | some it' =>
        rcases List.mem_cons.mp h with h1 | h2
        · exact ⟨b, List.mem_cons_self _ _, by rw [hp, h1]⟩
        · obtain ⟨b', hb', h'⟩ := ih h2
          exact ⟨b', List.mem_cons_of_mem _ hb', h'⟩

/-- C2: for every invocation of `run_news_crawl`, if a prior durable
write exists (the store file is present) and `now` minus the store's
last-write time is strictly less than 4 hours, the crawl returns the
retry-later message with count 0 and leaves the store unchanged; the
result does not depend on any fetched data (no fetch is performed). -/
theorem crawl_gate_blocks (rows : List StoredItem) (m now : Int)
    (fetched : List (List Item)) (h : now - m < crawlIntervalSecs) :
    run_news_crawl fetched (some (rows, m)) now = (retryMsg (now - m), 0, some (rows, m)) := by
  simp [run_news_crawl, h]

/-- Witness for `crawl_gate_blocks`: a store written at time 0 gates a
crawl at time 100 even though the (ignored) fetch carried a record. -/
theorem crawl_gate_blocks_witness :
    (100 : Int) - 0 < crawlIntervalSecs
    ∧ run_news_crawl [[itemLinked]] (some ([], 0)) 100
        = (retryMsg 100, 0, some ([], 0)) :=
  ⟨by decide, by simpa using crawl_gate_blocks [] 0 100 [[itemLinked]] (by decide)⟩

/-- C3 counterexample: with no prior store file and an empty candidate
list the filtered set is empty, yet the call creates the file (header
write) and stamps its modification time — the store does not stay
`none`, contradicting "no write occurs ... including the case where no
prior store file exists". -/
theorem save_empty_store_creates_file :
    save_news_to_csv [] none 5 = (0, some ([], 5))
    ∧ (some (([] : List StoredItem), (5 : Int)) : Store) ≠ none := by
  constructor
  · rfl
  · simp

/-- C3 (amended): when a prior store file exists and the candidates
filtered against the durable url set are empty, the merge writes
nothing: count 0 and the store (rows and modification time) unchanged.
When no prior file exists, the append-mode open plus header write
creates the file and stamps its mtime even with an empty filtered
set. -/
theorem save_no_new_no_write (rows : List StoredItem) (m : Int)
    (cands : List Item) (now : Int)
    (h : newItems cands (some (rows, m)) = []) :
    save_news_to_csv cands (some (rows, m)) now = (0, some (rows, m)) := by
  simp [save_news_to_csv, h]

/-- Witness for `save_no_new_no_write`: a candidate whose url is already
durable filters to nothing; the store keeps its rows and mtime 7. -/
theorem save_no_new_no_write_witness :
    newItems [itemLinked] (some ([toStored itemLinked], 7)) = []
    ∧ save_news_to_csv [itemLinked] (some ([toStored itemLinked], 7)) 9999
        = (0, some ([toStored itemLinked], 7)) :=
  ⟨by decide, save_no_new_no_write [toStored itemLinked] 7 [itemLinked] 9999 (by decide)⟩

/-- C8: a record is retained by the extractor only if its combined
title+summary text contains at least one keyword of the fixed
`KEYWORDS` list; the keyword that drove the search query (`keyword`)
plays no role in the filter. -/
theorem fetched_record_has_keyword (keyword : String) (score : String → String)
    (now : PyDateTime) (pages : List (Option (List ResultBlock))) (it : Item)
    (h : it ∈ fetch_news keyword score now pages) :
    KEYWORDS.any (fun kw => subMem kw.data (it.title ++ it.summary).data) = true := by
  unfold fetch_news at h
  rw [List.mem_flatten] at h
  obtain ⟨l, hl, hit⟩ := h
  rw [List.mem_map] at hl
  obtain ⟨p, hp, rfl⟩ := hl
  cases p with
  | none => simp at hit
  | some blocks =>
    obtain ⟨b, _, hb⟩ := pageNews_mem hit
    exact (processBlock_emitted hb).2.2.2.2.2

/-- Witness for `fetched_record_has_keyword` on a concrete page. -/
theorem fetched_record_has_keyword_witness :
    itemLinked ∈ fetch_news "沪金" (fun _ => "0.5") sampleNow [some [blockLinked]]
    ∧ KEYWORDS.any
        (fun kw => subMem kw.data (itemLinked.title ++ itemLinked.summary).data) = true :=
  ⟨by decide,
   fetched_record_has_keyword "沪金" (fun _ => "0.5") sampleNow [some [blockLinked]]
     itemLinked (by decide)⟩

/-- Membership in a dict insertion comes from the old dict or is the
inserted value. -/
theorem dictInsert_mem {d : List (String × Item)} {k : String} {v : Item}
    {p : String × Item} (h : p ∈ dictInsert d k v) : p ∈ d ∨ p.2 = v := by
  unfold dictInsert at h
  split at h
  · rw [List.mem_map] at h
    obtain ⟨q, hq, hpq⟩ := h
    by_cases hk : q.1 = k
    · right; rw [if_pos hk] at hpq; rw [← hpq]
    · left; rw [if_neg hk] at hpq; rwa [← hpq]
  · rcases List.mem_append.mp h with h | h
    · exact Or.inl h
    · right; rw [List.mem_singleton] at h; rw [h]

/-- The merge-phase dict only ever holds items with a present url. -/
theorem foldDict_inv (items : List Item) (d : List (String × Item))
    (hd : ∀ p ∈ d, p.2.url ≠ none) :
    ∀ p ∈ items.foldl (fun d it =>
        match it.url with
        | none => d
        | some u => if u = "" then d else dictInsert d u it) d,
      p.2.url ≠ none := by
  induction items generalizing d with
  | nil => simpa using hd
  | cons it rest ih =>
    rw [List.foldl_cons]
    apply ih
    cases hu : it.url with
    | none => simpa [hu] using hd
    | some u =>
      by_cases he : u = ""
      · simpa [hu, he] using hd
      · intro q hq
        simp only [hu, if_neg he] at hq
        rcases dictInsert_mem hq with h | h
        · exact hd q h
        · rw [h, hu]; simp

/-- C9: a candidate with an absent url (`None` link: the title block had
no anchor) is discarded by the cross-keyword merge — everything passed
on to the persistence store has a present url — even though the
extractor does emit such a candidate (`blockNoLink` yields
`itemNoLink`, whose url is `none`). -/
theorem merge_discards_absent_url :
    (∀ (items : List Item) (it : Item), it ∈ uniqueNews items → it.url ≠ none)
    ∧ processBlock (fun _ => "0.5") sampleNow blockNoLink = .ok (some itemNoLink)
    ∧ itemNoLink.url = none := by
  refine ⟨?_, by decide, rfl⟩
  intro items it h
  unfold uniqueNews at h
  rw [List.mem_map] at h
  obtain ⟨p, hp, hpe⟩ := h
  rw [← hpe]
  exact foldDict_inv items [] (by simp) p hp

/-- Witness for `merge_discards_absent_url`: the merge of one linked and
one unlinked candidate keeps only the linked one. -/
theorem merge_discards_absent_url_witness :
    itemLinked ∈ uniqueNews [itemNoLink, itemLinked]
    ∧ itemLinked.url ≠ none :=
  ⟨by decide, merge_discards_absent_url.1 [itemNoLink, itemLinked] itemLinked (by decide)⟩

/-- C7 counterexample: a block whose cleaned title is the non-empty
keyword-bearing `"黄金期货上涨"` but whose summary cleans to `""` is
dropped by the extractor (`if title and summary` requires BOTH), so a
block is not retained merely because one of the two is non-empty. -/
theorem title_without_summary_dropped :
    ultimate_clean_text "黄金期货上涨" ≠ ""
    ∧ processBlock (fun _ => "0.5") sampleNow blockTitleOnly = .ok none := by
  exact ⟨by decide, by decide⟩

/-- C7 (amended): a candidate block is dropped at the emptiness check
when EITHER its cleaned title or its cleaned summary is empty; when both
are non-empty (and the time parse does not raise), the block survives to
the keyword filter and is emitted exactly when a tracked keyword occurs
in the combined text. -/
theorem block_empty_side_dropped (score : String → String) (now : PyDateTime)
    (b : ResultBlock) :
    ((ultimate_clean_text (b.titleTag.getD "") = ""
        ∨ ultimate_clean_text (b.summaryTag.getD "") = "") →
      ∀ it : Item, processBlock score now b ≠ .ok (some it))
    ∧ (∀ parsed : PyDateTime,
        ultimate_clean_text (b.titleTag.getD "") ≠ "" →
        ultimate_clean_text (b.summaryTag.getD "") ≠ "" →
        parse_sina_time (match b.timeTag with | some t => .str t | none => .notStr) now
          = .ok parsed →
        KEYWORDS.any (fun kw => subMem kw.data
          (ultimate_clean_text (b.titleTag.getD "")
            ++ ultimate_clean_text (b.summaryTag.getD "")).data) = true →
        processBlock score now b = .ok (some
          { title := ultimate_clean_text (b.titleTag.getD "")
            summary := ultimate_clean_text (b.summaryTag.getD "")
            time := parsed
            url := b.linkHref
            sentiment := score (ultimate_clean_text (b.titleTag.getD "")
              ++ ultimate_clean_text (b.summaryTag.getD "")) })) := by
  constructor
  · intro hemp it hc
    obtain ⟨ht, hs, -, hnt, hns, -⟩ := processBlock_emitted hc
    rcases hemp with he | he
    · exact hnt (ht.trans he)
    · exact hns (hs.trans he)
  · intro parsed hnt hns hq hkw
    unfold processBlock
    rw [hq]
    simp only [String.data_append] at hkw
    simp [hnt, hns, ← List.any_eq_true, hkw]

/-- Witness for `block_empty_side_dropped`: a block with an empty
cleaned title is dropped. -/
theorem block_empty_side_dropped_witness :
    processBlock (fun _ => "0.5") sampleNow blockEmptyTitle ≠ .ok (some itemLinked) :=
  (block_empty_side_dropped (fun _ => "0.5") sampleNow blockEmptyTitle).1
    (Or.inl (by decide)) itemLinked

/-! ### Persistence helpers (shared by the merge claims) -/

/-- `urlKnown` is membership of the (present) url. -/
theorem urlKnown_iff {u : Option String} {ex : List String} :
    urlKnown u ex = true ↔ ∃ s, u = some s ∧ s ∈ ex := by
  cases u with
  | none => simp [urlKnown]
  | some s => simp [urlKnown, List.elem_iff]

/-- Against a missing file everything is new. -/
theorem newItems_none (A : List Item) : newItems A none = A := by
  unfold newItems
  rw [List.filter_eq_self]
  intro it _
  cases h : it.url <;> simp [urlKnown, existingUrls, h]

/-- With an empty filtered set and an existing file, the merge is a
no-op returning zero. -/
theorem save_filtered_empty {rows : List StoredItem} {m : Int} {cands : List Item}
    {now : Int} (h : newItems cands (some (rows, m)) = []) :
    save_news_to_csv cands (some (rows, m)) now = (0, some (rows, m)) := by
  simp [save_news_to_csv, h]

/-- Url column of the rows written for all-linked candidates. -/
theorem storedUrls_of_some {A : List Item} (hA : ∀ it ∈ A, it.url ≠ none) :
    (A.map toStored).map (·.url) = candUrls A := by
  induction A with
  | nil => rfl
  | cons it rest ih =>
    cases hu : it.url with
    | none => exact absurd hu (hA it (List.mem_cons_self _ _))
    | some u =>
      have hrest : ∀ x ∈ rest, x.url ≠ none := fun x hx => hA x (List.mem_cons_of_mem _ hx)
      show (toStored it).url :: (rest.map toStored).map (·.url) = candUrls (it :: rest)
      rw [ih hrest]
      simp [candUrls, toStored, hu]

/-- Membership in the url list of a candidate batch. -/
theorem mem_candUrls {u : String} {l : List Item} :
    u ∈ candUrls l ↔ ∃ it ∈ l, it.url = some u := by
  simp [candUrls, List.mem_filterMap]

/-- C1: (general part) the merge appends exactly the candidates whose
url is not already durable and returns their count; (scenario) from an
empty store, merging batch `A` then batch `B` (each with present,
intra-batch-distinct urls, possibly sharing urls across batches) leaves
exactly one durable record per distinct url, and merging either batch
again returns `newCount = 0` and leaves the store — rows and
modification time — unchanged. -/
theorem merge_dedups_by_url :
    (∀ (st : Store) (cands : List Item) (now : Int),
      (save_news_to_csv cands st now).1 = (newItems cands st).length
      ∧ storeRows (save_news_to_csv cands st now).2
          = storeRows st ++ (newItems cands st).map toStored)
    ∧ (∀ (A B : List Item) (n1 n2 n3 n4 : Int),
        (∀ it ∈ A, it.url ≠ none) → (∀ it ∈ B, it.url ≠ none) →
        (candUrls A).Nodup → (candUrls B).Nodup →
        ((storeRows (save_news_to_csv B (save_news_to_csv A none n1).2 n2).2).map (·.url)).Nodup
        ∧ (∀ u, u ∈ (storeRows (save_news_to_csv B (save_news_to_csv A none n1).2 n2).2).map (·.url)
            ↔ u ∈ candUrls A ∨ u ∈ candUrls B)
        ∧ save_news_to_csv B (save_news_to_csv B (save_news_to_csv A none n1).2 n2).2 n3
            = (0, (save_news_to_csv B (save_news_to_csv A none n1).2 n2).2)
        ∧ save_news_to_csv A (save_news_to_csv B (save_news_to_csv A none n1).2 n2).2 n4
            = (0, (save_news_to_csv B (save_news_to_csv A none n1).2 n2).2)) := by
  constructor
  · intro st cands now
    match st with
    | none => simp [save_news_to_csv, storeRows]
    | some (rows, m) =>
      by_cases h : (newItems cands (some (rows, m))).isEmpty
      · rw [List.isEmpty_iff] at h
        simp [save_news_to_csv, h, storeRows]
      · simp [save_news_to_csv, h, storeRows]
  · intro A B n1 n2 n3 n4 hAs hBs hAnd hBnd
    have hs1 : save_news_to_csv A none n1 = (A.length, some (A.map toStored, n1)) := by
      simp [save_news_to_csv, newItems_none]
    have hex1 : existingUrls (some (A.map toStored, n1)) = candUrls A := by
      simp [existingUrls, storedUrls_of_some hAs]
    -- the second batch filtered against the first
    set FB := newItems B (some (A.map toStored, n1)) with hFBdef
    have hFBsub : FB.Sublist B := List.filter_sublist B
    have hFBs : ∀ it ∈ FB, it.url ≠ none := fun it hit => hBs it (hFBsub.mem hit)
    have hFBnd : (candUrls FB).Nodup := (hFBsub.filterMap _).nodup hBnd
    have hFBfresh : ∀ u, u ∈ candUrls FB → u ∉ candUrls A := by
      intro u hu hcontra
      obtain ⟨it, hitFB, hitu⟩ := mem_candUrls.mp hu
      have := List.of_mem_filter hitFB
      rw [hex1] at this
      simp only [Bool.not_eq_true'] at this
      rw [← Bool.not_eq_true] at this
      exact this (urlKnown_iff.mpr ⟨u, hitu, hcontra⟩)
    have hFBmem : ∀ u, u ∈ candUrls A ∨ u ∈ candUrls FB ↔ u ∈ candUrls A ∨ u ∈ candUrls B := by
      intro u
      constructor
      · rintro (h | h)
        · exact Or.inl h
        · obtain ⟨it, hit, hu⟩ := mem_candUrls.mp h
          exact Or.inr (mem_candUrls.mpr ⟨it, hFBsub.mem hit, hu⟩)
      · rintro (h | h)
        · exact Or.inl h
        · by_cases hA : u ∈ candUrls A
          · exact Or.inl hA
          · obtain ⟨it, hit, hu⟩ := mem_candUrls.mp h
            refine Or.inr (mem_candUrls.mpr ⟨it, ?_, hu⟩)
            rw [hFBdef]
            unfold newItems
            rw [List.mem_filter]
            refine ⟨hit, ?_⟩
            simp only [Bool.not_eq_true', ← Bool.not_eq_true]
            rw [hex1]
            intro hk
            obtain ⟨s, hus, hsmem⟩ := urlKnown_iff.mp hk
            rw [hu] at hus
            cases hus
            exact hA hsmem
    have hs2 : (save_news_to_csv B (some (A.map toStored, n1)) n2).2
        = some (A.map toStored ++ FB.map toStored, if FB = [] then n1 else n2) := by
      by_cases hFBe : FB = []
      · simp [save_news_to_csv, ← hFBdef, hFBe]
      · have : ¬ FB.isEmpty := by simpa [List.isEmpty_iff] using hFBe
        simp [save_news_to_csv, ← hFBdef, hFBe, this]
    rw [hs1]
    rw [hs2]
    have hurls : ((A.map toStored ++ FB.map toStored).map (·.url))
        = candUrls A ++ candUrls FB := by
      rw [List.map_append, storedUrls_of_some hAs, storedUrls_of_some hFBs]
    have hnd : ((A.map toStored ++ FB.map toStored).map (·.url)).Nodup := by
      rw [hurls, List.nodup_append]
      exact ⟨hAnd, hFBnd, fun u hu hv => hFBfresh u hv hu⟩
    have hmem : ∀ u, u ∈ (A.map toStored ++ FB.map toStored).map (·.url)
        ↔ u ∈ candUrls A ∨ u ∈ candUrls B := by
      intro u
      rw [hurls, List.mem_append]
      exact hFBmem u
    have hex2 : existingUrls (some (A.map toStored ++ FB.map toStored,
        if FB = [] then n1 else n2)) = (A.map toStored ++ FB.map toStored).map (·.url) := rfl
    have hreB : newItems B (some (A.map toStored ++ FB.map toStored,
        if FB = [] then n1 else n2)) = [] := by
      unfold newItems
      rw [List.filter_eq_nil_iff]
      intro it hit
      simp only [Bool.not_eq_true', Bool.not_eq_false]
      obtain ⟨u, hu⟩ := Option.ne_none_iff_exists'.mp (hBs it hit)
      refine urlKnown_iff.mpr ⟨u, hu, ?_⟩
      rw [hex2, hmem]
      exact Or.inr (mem_candUrls.mpr ⟨it, hit, hu⟩)
    have hreA : newItems A (some (A.map toStored ++ FB.map toStored,
        if FB = [] then n1 else n2)) = [] := by
      unfold newItems
      rw [List.filter_eq_nil_iff]
      intro it hit
      simp only [Bool.not_eq_true', Bool.not_eq_false]
      obtain ⟨u, hu⟩ := Option.ne_none_iff_exists'.mp (hAs it hit)
      refine urlKnown_iff.mpr ⟨u, hu, ?_⟩
      rw [hex2, hmem]
      exact Or.inl (mem_candUrls.mpr ⟨it, hit, hu⟩)
    exact ⟨by simpa [storeRows] using hnd,
           by simpa [storeRows] using hmem,
           save_filtered_empty hreB,
           save_filtered_empty hreA⟩

/-- Witness for `merge_dedups_by_url`: batches `[itemLinked]` and
`[itemDup, itemB2]` share the url of `itemLinked`/`itemDup`; after both
merges the durable urls are distinct, and re-merging the second batch
adds nothing and changes nothing. -/
theorem merge_dedups_by_url_witness :
    ((storeRows (save_news_to_csv [itemDup, itemB2]
        (save_news_to_csv [itemLinked] none 1).2 2).2).map (·.url)).Nodup
    ∧ save_news_to_csv [itemDup, itemB2]
        (save_news_to_csv [itemDup, itemB2] (save_news_to_csv [itemLinked] none 1).2 2).2 3
      = (0, (save_news_to_csv [itemDup, itemB2]
          (save_news_to_csv [itemLinked] none 1).2 2).2) :=
  have h := merge_dedups_by_url.2 [itemLinked] [itemDup, itemB2] 1 2 3 4
    (by decide) (by decide) (by decide) (by decide)
  ⟨h.1, h.2.2.1⟩

/-! ### Termination of the unescape loop (C10) -/

/-- A resolved entity reference consumed at least two characters after
the `&` (the shortest table entries are `lt`/`gt`). -/
theorem findEnt_some {rest : List Char} {d : Char} {r : List Char}
    (h : findEnt rest = some (d, r)) :
    ∃ k, 2 ≤ k ∧ k ≤ rest.length ∧ r = rest.drop k := by
  unfold findEnt at h
  cases hf : entities.find? (fun e => e.1.isPrefixOf rest) with
  | none => rw [hf] at h; exact absurd h (by simp)
  | some e =>
    rw [hf] at h
    simp only [Option.some.injEq, Prod.mk.injEq] at h
    have he : e ∈ entities := List.mem_of_find?_eq_some hf
    have hp : e.1.isPrefixOf rest = true := by simpa using List.find?_some hf
    have hlen2 : 2 ≤ e.1.length := by
      have : ∀ x ∈ entities, 2 ≤ x.1.length := by decide
      exact this e he
    have hle : e.1.length ≤ rest.length :=
      (List.isPrefixOf_iff_prefix.mp hp).length_le
    exact ⟨e.1.length, hlen2, hle, h.2.symm⟩

/-- One unescape pass never lengthens the string. -/
theorem unescU_le : ∀ (fuel : Nat) (l : List Char), (unescU fuel l).length ≤ l.length := by
  intro fuel
  induction fuel with
  | zero => intro l; simp [unescU]
  | succ n ih =>
    intro l
    match l with
    | [] => simp [unescU]
    | c :: rest =>
      rw [unescU]
      by_cases hc : c = '&'
      · rw [if_pos hc]
        cases hf : findEnt rest with
        | none => simpa using ih rest
        | some p =>
          obtain ⟨d, r⟩ := p
          obtain ⟨k, hk2, hkle, hr⟩ := findEnt_some hf
          have hler := ih r
          have hdrop : r.length = rest.length - k := by rw [hr, List.length_drop]
          simp only [List.length_cons]
          omega
      · rw [if_neg hc]; simpa using ih rest

/-- An unproductive pass is the identity; a productive pass strictly
shrinks the string. -/
theorem unescU_progress : ∀ (fuel : Nat) (l : List Char),
    unescU fuel l = l ∨ (unescU fuel l).length < l.length := by
  intro fuel
  induction fuel with
  | zero => intro l; exact Or.inl rfl
  | succ n ih =>
    intro l
    match l with
    | [] => exact Or.inl (by simp [unescU])
    | c :: rest =>
      rw [unescU]
      by_cases hc : c = '&'
      · rw [if_pos hc]
        cases hf : findEnt rest with
        | none =>
          rcases ih rest with h | h
          · exact Or.inl (by rw [h, hc])
          · exact Or.inr (by simpa using h)
        | some p =>
          obtain ⟨d, r⟩ := p
          obtain ⟨k, hk2, hkle, hr⟩ := findEnt_some hf
          have hler := unescU_le n r
          have hdrop : r.length = rest.length - k := by rw [hr, List.length_drop]
          refine Or.inr ?_
          simp only [List.length_cons]
          omega
      · rw [if_neg hc]
        rcases ih rest with h | h
        · exact Or.inl (by rw [h])
        · exact Or.inr (by simpa using h)

/-- `unescapeOnce` never lengthens the string. -/
theorem unescapeOnce_le (l : List Char) : (unescapeOnce l).length ≤ l.length :=
  unescU_le l.length l

/-- `unescapeOnce` is the identity or strictly shrinks its input. -/
theorem unescapeOnce_progress (l : List Char) :
    unescapeOnce l = l ∨ (unescapeOnce l).length < l.length :=
  unescU_progress l.length l

/-- With fuel exceeding the string length, the source's unescape loop
lands on a fixed point of `unescapeOnce`. -/
theorem unescapeLoop_fix : ∀ (fuel : Nat) (l : List Char), l.length < fuel →
    unescapeOnce (unescapeLoop fuel l) = unescapeLoop fuel l := by
  intro fuel
  induction fuel with
  | zero => intro l h; omega
  | succ n ih =>
    intro l h
    rw [unescapeLoop]
    by_cases hfix : unescapeOnce l = l
    · simp [hfix]
    · rw [if_neg hfix]
      apply ih
      rcases unescapeOnce_progress l with h' | h'
      · exact absurd h' hfix
      · omega

/-- The loop's value is one of the iterates of `unescapeOnce`. -/
theorem unescapeLoop_iterate : ∀ (fuel : Nat) (l : List Char),
    ∃ n, unescapeLoop fuel l = unescapeOnce^[n] l := by
  intro fuel
  induction fuel with
  | zero => intro l; exact ⟨0, rfl⟩
  | succ m ih =>
    intro l
    by_cases hfix : unescapeOnce l = l
    · exact ⟨0, by rw [unescapeLoop, if_pos hfix]; rfl⟩
    · obtain ⟨n, hn⟩ := ih (unescapeOnce l)
      refine ⟨n + 1, ?_⟩
      rw [unescapeLoop, if_neg hfix, hn, Function.iterate_succ_apply]

/-- C10: for every string input, the source's repeated HTML-unescape
loop terminates: the value `unescapeFix` computed by the loop is a fixed
point of the unescape step, reached after finitely many iterations of
that step — hence `ultimate_clean_text` is total. -/
theorem unescape_loop_terminates (s : String) :
    unescapeOnce (unescapeFix s.data) = unescapeFix s.data
    ∧ ∃ n, unescapeOnce^[n] s.data = unescapeFix s.data := by
  constructor
  · exact unescapeLoop_fix _ _ (by omega)
  · obtain ⟨n, hn⟩ := unescapeLoop_iterate (s.data.length + 1) s.data
    exact ⟨n, hn.symm⟩

/-- C6 counterexample: for the text `"2000000000分钟前"` the subtraction
`now - timedelta(minutes=2000000000)` falls below `datetime.min` and
raises `OverflowError`, which `except (ValueError, AttributeError)`
does not catch — the parser propagates an error instead of returning a
timestamp. -/
theorem parse_time_overflow_raises :
    parse_sina_time (.str "2000000000分钟前") sampleNow = .error "OverflowError" := by
  decide

/-- C6 (amended): the only error `parse_sina_time` can propagate is the
`OverflowError` of the minutes-ago branch with an out-of-range minute
count; every other failure is caught: non-string input, a minutes
marker without digits, an unparsable today-token and an unparsable
`MM-DD HH:MM` text all fall back to returning `now`. -/
theorem parse_time_error_policy (t : PyStr) (now : PyDateTime) :
    (∀ e, parse_sina_time t now = .error e →
      ∃ s n, t = .str s ∧ subMem "分钟前".data s.data = true ∧ firstNum s.data = some n
        ∧ (tdMinutesBound ≤ n ∨ toMin now < n))
    ∧ (t = .notStr → parse_sina_time t now = .ok now)
    ∧ (∀ s, t = .str s → subMem "分钟前".data s.data = true → firstNum s.data = none →
        parse_sina_time t now = .ok now)
    ∧ (∀ s, t = .str s → subMem "分钟前".data s.data = false →
        subMem "今天".data s.data = true →
        strptime? (datePrefix now ++ ' ' :: (splitSpace s.data).getLastD []) = none →
        parse_sina_time t now = .ok now)
    ∧ (∀ s, t = .str s → subMem "分钟前".data s.data = false →
        subMem "今天".data s.data = false →
        strptime? ((Nat.repr now.year).data ++ '-' :: s.data) = none →
        parse_sina_time t now = .ok now) := by
  refine ⟨?_, ?_, ?_, ?_, ?_⟩
  · intro e he
    cases t with
    | notStr => exact absurd he (by simp [parse_sina_time])
    | str s =>
      refine ⟨s, ?_⟩
      cases h1 : subMem "分钟前".data s.data with
      | false =>
        exfalso
        cases h2 : subMem "今天".data s.data with
        | true =>
          rw [parse_sina_time] at he
          rw [h1, h2] at he
          simp only [Bool.false_eq_true, if_false, if_true] at he
          cases hp : strptime? (datePrefix now ++ ' ' :: (splitSpace s.data).getLastD []) with
          | some d => simp only [hp] at he; exact absurd he (by simp)
          | none => simp only [hp] at he; exact absurd he (by simp)
        | false =>
          rw [parse_sina_time] at he
          rw [h1, h2] at he
          simp only [Bool.false_eq_true, if_false] at he
          cases hp : strptime? ((Nat.repr now.year).data ++ '-' :: s.data) with
          | some d =>
            simp only [hp] at he
            by_cases hlt : dtLt now d = true
            · rw [if_pos hlt] at he
              cases hv : mkValid? (now.year - 1) d.month d.day d.hour d.minute with
              | some d2 => simp only [hv] at he; exact absurd he (by simp)
              | none => simp only [hv] at he; exact absurd he (by simp)
            · rw [if_neg hlt] at he; exact absurd he (by simp)
          | none => simp only [hp] at he; exact absurd he (by simp)
      | true =>
        rw [parse_sina_time] at he
        rw [h1] at he
        simp only [if_true] at he
        cases hn : firstNum s.data with
        | none => simp only [hn] at he; exact absurd he (by simp)
        | some n =>
          simp only [hn] at he
          refine ⟨n, rfl, rfl, rfl, ?_⟩
          by_cases hb : tdMinutesBound ≤ n
          · exact Or.inl hb
          · rw [if_neg hb] at he
            by_cases ht : toMin now < n
            · exact Or.inr ht
            · exfalso
              have : minuteSub? now n = some (fromMin (toMin now - n)) := by
                simp [minuteSub?, ht]
              simp only [this] at he
              exact absurd he (by simp)
  · intro h; rw [h]; rfl
  · intro s hts h1 hn
    rw [hts, parse_sina_time, h1]
    simp only [if_true]
    rw [hn]
  · intro s hts h1 h2 hp
    rw [hts, parse_sina_time, h1, h2]
    simp only [Bool.false_eq_true, if_false, if_true]
    rw [hp]
  · intro s hts h1 h2 hp
    rw [hts, parse_sina_time, h1, h2]
    simp only [Bool.false_eq_true, if_false]
    rw [hp]

/-- Witness for `parse_time_error_policy`: an unparsable text returns
`now`. -/
theorem parse_time_error_policy_witness :
    parse_sina_time (.str "garbage") sampleNow = .ok sampleNow :=
  (parse_time_error_policy (.str "garbage") sampleNow).2.2.2.2 "garbage" rfl
    (by decide) (by decide) (by decide)

/-! ### strptime roundtrip lemmas (C4) -/

/-- `dChar` produces the digit character of `k % 10`. -/
theorem dChar_spec (k : Nat) : isDigitC (dChar k) = true ∧ dval (dChar k) = k % 10 := by
  have hlt : k % 10 < 10 := Nat.mod_lt _ (by omega)
  have base : ∀ v, v < 10 →
      isDigitC (Char.ofNat (48 + v)) = true ∧ dval (Char.ofNat (48 + v)) = v := by decide
  exact base (k % 10) hlt

/-- A digit character's value is below ten. -/
theorem dval_le_nine {c : Char} (h : isDigitC c = true) : dval c ≤ 9 := by
  unfold isDigitC at h
  unfold dval
  simp only [Bool.and_eq_true, decide_eq_true_eq] at h
  omega

/-- `%Y` consumes a zero-padded four-digit year exactly. -/
theorem pY4_pad {α : Type} (k : List Char → Nat → Option α) {y : Nat} (h : y ≤ 9999)
    (rest : List Char) : pY4 k (pad4 y ++ rest) = k rest y := by
  have c0 := dChar_spec (y / 1000)
  have c1 := dChar_spec (y / 100)
  have c2 := dChar_spec (y / 10)
  have c3 := dChar_spec y
  show pY4 k (dChar (y / 1000) :: dChar (y / 100) :: dChar (y / 10) :: dChar y :: rest)
      = k rest y
  rw [pY4]
  rw [c0.1, c1.1, c2.1, c3.1]
  simp only [Bool.and_self, if_true]
  rw [c0.2, c1.2, c2.2, c3.2]
  congr 1
  omega

/-- A format literal consumes its own character. -/
theorem pLit_step {α : Type} (ch : Char) (k : List Char → Option α) (rest : List Char) :
    pLit ch k (ch :: rest) = k rest := by
  simp [pLit]

/-- The format's space consumes a space plus any following whitespace. -/
theorem pWS_step {α : Type} (k : List Char → Option α) (rest : List Char) :
    pWS k (' ' :: rest) = k (rest.dropWhile isPySpace) := by
  simp [pWS, isPySpace]

/-- `%m` consumes a zero-padded month and hands the continuation its
value (for months 1-12, when the continuation succeeds). -/
theorem pMonth_pad {α : Type} (k : List Char → Nat → Option α) {m : Nat} {rest : List Char}
    {r : α} (h1 : 1 ≤ m) (h2 : m ≤ 12) (hk : k rest m = some r) :
    pMonth k (pad2 m ++ rest) = some r := by
  have ca := dChar_spec (m / 10)
  have cb := dChar_spec m
  show pMonth k (dChar (m / 10) :: dChar m :: rest) = some r
  unfold pMonth
  by_cases hm : m ≤ 9
  · have e0 : dval (dChar (m / 10)) = 0 := by rw [ca.2]; omega
    have eb : dval (dChar m) = m := by rw [cb.2]; omega
    rw [alt2, alt2]
    rw [ca.1, cb.1, e0, eb]
    simp only [Bool.and_eq_true, decide_eq_true_eq]
    have hOne : ¬ ((isDigitC (dChar (m / 10))
        && isDigitC (dChar m) && decide (0 = 1) && decide (m ≤ 2)) = true) := by simp
    rw [if_neg (by simp), if_pos (by simp [ca.1, cb.1, e0, eb, h1])]
    rw [show (0 : Nat) * 10 + m = m by omega, hk]
    rfl
  · have e1 : dval (dChar (m / 10)) = 1 := by rw [ca.2]; omega
    have eb : dval (dChar m) = m - 10 := by rw [cb.2]; omega
    rw [alt2]
    rw [if_pos (by simp [ca.1, cb.1, e1, eb]; omega)]
    rw [e1, eb, show (1 : Nat) * 10 + (m - 10) = m by omega, hk]
    rfl

/-- `%d` consumes a zero-padded day and hands the continuation its value
(for days 1-31, when the continuation succeeds). -/
theorem pDay_pad {α : Type} (k : List Char → Nat → Option α) {d : Nat} {rest : List Char}
    {r : α} (h1 : 1 ≤ d) (h2 : d ≤ 31) (hk : k rest d = some r) :
    pDay k (pad2 d ++ rest) = some r := by
  have ca := dChar_spec (d / 10)
  have cb := dChar_spec d
  show pDay k (dChar (d / 10) :: dChar d :: rest) = some r
  unfold pDay
  by_cases hd9 : d ≤ 9
  · have e0 : dval (dChar (d / 10)) = 0 := by rw [ca.2]; omega
    have eb : dval (dChar d) = d := by rw [cb.2]; omega
    rw [alt2, alt2, alt2]
    rw [if_neg (by simp [e0]), if_neg (by simp [e0]),
        if_pos (by simp [ca.1, cb.1, e0, eb, h1])]
    rw [e0, eb, show (0 : Nat) * 10 + d = d by omega, hk]
    rfl
  · by_cases hd29 : d ≤ 29
    · have e12 : dval (dChar (d / 10)) = d / 10 := by rw [ca.2]; omega
      have hr : 1 ≤ d / 10 ∧ d / 10 ≤ 2 := by omega
      have eb : dval (dChar d) = d % 10 := cb.2
      rw [alt2, alt2]
      rw [if_neg (by simp [e12]; omega),
          if_pos (by simp [ca.1, cb.1, e12]; omega)]
      rw [e12, eb, show d / 10 * 10 + d % 10 = d by omega, hk]
      rfl
    · have e3 : dval (dChar (d / 10)) = 3 := by rw [ca.2]; omega
      have eb : dval (dChar d) = d - 30 := by rw [cb.2]; omega
      rw [alt2]
      rw [if_pos (by simp [ca.1, cb.1, e3, eb]; omega)]
      rw [e3, eb, show (3 : Nat) * 10 + (d - 30) = d by omega, hk]
      rfl

/-- Mapping over the parse result distributes through `alt1`. -/
theorem alt1_map {β γ : Type} (g : β → γ) (cond : Char → Bool)
    (k1 : List Char → Nat → Option β) (k2 : List Char → Nat → Option γ)
    (hk : ∀ x v, (k1 x v).map g = k2 x v) (cs : List Char) :
    (alt1 cond k1 cs).map g = alt1 cond k2 cs := by
  cases cs with
  | nil => simp [alt1]
  | cons c rest =>
    rw [alt1, alt1]
    split
    · exact hk rest (dval c)
    · simp

/-- Mapping over the parse result distributes through `alt2`. -/
theorem alt2_map {β γ : Type} (g : β → γ) (cond : Char → Char → Bool)
    (k1 : List Char → Nat → Option β) (k2 : List Char → Nat → Option γ)
    (hk : ∀ x v, (k1 x v).map g = k2 x v) (cs : List Char) :
    (alt2 cond k1 cs).map g = alt2 cond k2 cs := by
  match cs with
  | [] => simp [alt2]
  | [c] => simp [alt2]
  | c :: d :: rest =>
    rw [alt2, alt2]
    split
    · exact hk rest (dval c * 10 + dval d)
    · simp

/-- Mapping over the parse result distributes through `pLit`. -/
theorem pLit_map {β γ : Type} (g : β → γ) (ch : Char)
    (k1 : List Char → Option β) (k2 : List Char → Option γ)
    (hk : ∀ x, (k1 x).map g = k2 x) (cs : List Char) :
    (pLit ch k1 cs).map g = pLit ch k2 cs := by
  cases cs with
  | nil => simp [pLit]
  | cons c rest =>
    rw [pLit, pLit]
    split
    · exact hk rest
    · simp

/-- Mapping over the parse result distributes through `pWS`. -/
theorem pWS_map {β γ : Type} (g : β → γ)
    (k1 : List Char → Option β) (k2 : List Char → Option γ)
    (hk : ∀ x, (k1 x).map g = k2 x) (cs : List Char) :
    (pWS k1 cs).map g = pWS k2 cs := by
  cases cs with
  | nil => simp [pWS]
  | cons c rest =>
    rw [pWS, pWS]
    split
    · exact hk _
    · simp

/-- Mapping over the parse result distributes through `pMin`. -/
theorem pMin_map {β γ : Type} (g : β → γ)
    (k1 : List Char → Nat → Option β) (k2 : List Char → Nat → Option γ)
    (hk : ∀ x v, (k1 x v).map g = k2 x v) (cs : List Char) :
    (pMin k1 cs).map g = pMin k2 cs := by
  unfold pMin
  rw [Option.map_orElse, alt2_map g _ _ _ hk, alt1_map g _ _ _ hk]

/-- Mapping over the parse result distributes through `pHour`. -/
theorem pHour_map {β γ : Type} (g : β → γ)
    (k1 : List Char → Nat → Option β) (k2 : List Char → Nat → Option γ)
    (hk : ∀ x v, (k1 x v).map g = k2 x v) (cs : List Char) :
    (pHour k1 cs).map g = pHour k2 cs := by
  unfold pHour
  rw [Option.map_orElse, Option.map_orElse,
      alt2_map g _ _ _ hk, alt2_map g _ _ _ hk, alt1_map g _ _ _ hk]

/-- Mapping over the parse result distributes through `pMonth`. -/
theorem pMonth_map {β γ : Type} (g : β → γ)
    (k1 : List Char → Nat → Option β) (k2 : List Char → Nat → Option γ)
    (hk : ∀ x v, (k1 x v).map g = k2 x v) (cs : List Char) :
    (pMonth k1 cs).map g = pMonth k2 cs := by
  unfold pMonth
  rw [Option.map_orElse, Option.map_orElse,
      alt2_map g _ _ _ hk, alt2_map g _ _ _ hk, alt1_map g _ _ _ hk]

/-- Mapping over the parse result distributes through `pDay`. -/
theorem pDay_map {β γ : Type} (g : β → γ)
    (k1 : List Char → Nat → Option β) (k2 : List Char → Nat → Option γ)
    (hk : ∀ x v, (k1 x v).map g = k2 x v) (cs : List Char) :
    (pDay k1 cs).map g = pDay k2 cs := by
  unfold pDay
  rw [Option.map_orElse, Option.map_orElse, Option.map_orElse,
      alt2_map g _ _ _ hk, alt2_map g _ _ _ hk, alt2_map g _ _ _ hk,
      alt1_map g _ _ _ hk]

/-- The `%H:%M` tail of the full format is the anchored `hmFull` match
with the year/month/day fields already bound. -/
theorem hm_tail (y mo dy : Nat) (cs : List Char) :
    pHour (fun s7 h =>
      pLit ':' (fun s8 =>
        pMin (fun s9 mi =>
          if s9.isEmpty then some (y, mo, dy, h, mi) else none) s8) s7) cs
    = (hmFull cs).map (fun t => (y, mo, dy, t.1, t.2)) := by
  unfold hmFull
  refine (pHour_map _ _ _ ?_ cs).symm
  intro s7 h
  refine pLit_map _ _ _ _ ?_ s7
  intro s8
  refine pMin_map _ _ _ ?_ s8
  intro s9 mi
  split <;> simp

/-- The `%m-%d %H:%M` tail of the full format is the anchored `mdhmFull`
match with the year already bound. -/
theorem md_tail (y : Nat) (cs : List Char) :
    pMonth (fun s3 m =>
      pLit '-' (fun s4 =>
        pDay (fun s5 d =>
          pWS (fun s6 =>
            pHour (fun s7 h =>
              pLit ':' (fun s8 =>
                pMin (fun s9 mi =>
                  if s9.isEmpty then some (y, m, d, h, mi) else none) s8) s7) s6) s5) s4) s3) cs
    = (mdhmFull cs).map (fun t => (y, t.1, t.2.1, t.2.2.1, t.2.2.2)) := by
  unfold mdhmFull
  refine (pMonth_map _ _ _ ?_ cs).symm
  intro s3 m
  refine pLit_map _ _ _ _ ?_ s3
  intro s4
  refine pDay_map _ _ _ ?_ s4
  intro s5 d
  refine pWS_map _ _ _ ?_ s5
  intro s6
  refine pHour_map _ _ _ ?_ s6
  intro s7 h
  refine pLit_map _ _ _ _ ?_ s7
  intro s8
  refine pMin_map _ _ _ ?_ s8
  intro s9 mi
  split <;> simp

/-- Elimination for a successful regex alternation. -/
theorem orElse_eq_some' {β : Type} {a b : Option β} {r : β}
    (h : (a <|> b) = some r) : a = some r ∨ (a = none ∧ b = some r) := by
  cases a with
  | none => right; exact ⟨rfl, by simpa using h⟩
  | some x => left; simpa using h

/-- Elimination for a successful `alt2`. -/
theorem alt2_some {β : Type} {cond : Char → Char → Bool}
    {k : List Char → Nat → Option β} {cs : List Char} {r : β}
    (h : alt2 cond k cs = some r) :
    ∃ c d rest, cs = c :: d :: rest ∧ cond c d = true
      ∧ k rest (dval c * 10 + dval d) = some r := by
  match cs with
  | [] => simp [alt2] at h
  | [c] => simp [alt2] at h
  | c :: d :: rest =>
    rw [alt2] at h
    split at h
    · exact ⟨c, d, rest, rfl, by assumption, h⟩
    · simp at h

/-- Elimination for a successful `alt1`. -/
theorem alt1_some {β : Type} {cond : Char → Bool}
    {k : List Char → Nat → Option β} {cs : List Char} {r : β}
    (h : alt1 cond k cs = some r) :
    ∃ c rest, cs = c :: rest ∧ cond c = true ∧ k rest (dval c) = some r := by
  match cs with
  | [] => simp [alt1] at h
  | c :: rest =>
    rw [alt1] at h
    split at h
    · exact ⟨c, rest, rfl, by assumption, h⟩
    · simp at h

/-- Elimination for a successful `pLit`. -/
theorem pLit_some {β : Type} {ch : Char} {k : List Char → Option β}
    {cs : List Char} {r : β} (h : pLit ch k cs = some r) :
    ∃ rest, cs = ch :: rest ∧ k rest = some r := by
  match cs with
  | [] => simp [pLit] at h
  | c :: rest =>
    rw [pLit] at h
    split at h
    · next hc => exact ⟨rest, by rw [hc], h⟩
    · simp at h

/-- An `%H` match yields a value at most 23. -/
theorem pHour_bound {β : Type} {k : List Char → Nat → Option β}
    {cs : List Char} {r : β} (h : pHour k cs = some r) :
    ∃ v rest, v ≤ 23 ∧ k rest v = some r := by
  unfold pHour at h
  rcases orElse_eq_some' h with h1 | ⟨-, h2⟩
  · obtain ⟨c, d, rest, -, hc, hk⟩ := alt2_some h1
    simp only [Bool.and_eq_true, decide_eq_true_eq] at hc
    exact ⟨_, rest, by omega, hk⟩
  · rcases orElse_eq_some' h2 with h3 | ⟨-, h4⟩
    · obtain ⟨c, d, rest, -, hc, hk⟩ := alt2_some h3
      simp only [Bool.and_eq_true, decide_eq_true_eq] at hc
      have := dval_le_nine hc.1.2
      exact ⟨_, rest, by omega, hk⟩
    · obtain ⟨c, rest, -, hc, hk⟩ := alt1_some h4
      have := dval_le_nine hc
      exact ⟨_, rest, by omega, hk⟩

/-- A `%M` match yields a value at most 59. -/
theorem pMin_bound {β : Type} {k : List Char → Nat → Option β}
    {cs : List Char} {r : β} (h : pMin k cs = some r) :
    ∃ v rest, v ≤ 59 ∧ k rest v = some r := by
  unfold pMin at h
  rcases orElse_eq_some' h with h1 | ⟨-, h2⟩
  · obtain ⟨c, d, rest, -, hc, hk⟩ := alt2_some h1
    simp only [Bool.and_eq_true, decide_eq_true_eq] at hc
    have := dval_le_nine hc.1.2
    exact ⟨_, rest, by omega, hk⟩
  · obtain ⟨c, rest, -, hc, hk⟩ := alt1_some h2
    have := dval_le_nine hc
    exact ⟨_, rest, by omega, hk⟩

/-- A successful anchored `%H:%M` match is within clock bounds. -/
theorem hmFull_bounds {cs : List Char} {h mi : Nat}
    (hh : hmFull cs = some (h, mi)) : h ≤ 23 ∧ mi ≤ 59 := by
  unfold hmFull at hh
  obtain ⟨v, rest, hv, hk⟩ := pHour_bound hh
  obtain ⟨rest2, -, hk2⟩ := pLit_some hk
  obtain ⟨w, rest3, hw, hk3⟩ := pMin_bound hk2
  split at hk3
  · simp only [Option.some.injEq, Prod.mk.injEq] at hk3
    omega
  · simp at hk3

/-- One step of the standard library's digit printer. -/
theorem toDigitsCore_step (b fuel n : Nat) (ds : List Char) :
    Nat.toDigitsCore b (fuel + 1) n ds
      = if n / b = 0 then Nat.digitChar (n % b) :: ds
        else Nat.toDigitsCore b fuel (n / b) (Nat.digitChar (n % b) :: ds) := by
  rw [Nat.toDigitsCore]

/-- Digit printing of a one-digit number. -/
theorem tdc1 (fuel n : Nat) (ds : List Char) (h : n ≤ 9) :
    Nat.toDigitsCore 10 (fuel + 1) n ds = Nat.digitChar n :: ds := by
  rw [toDigitsCore_step, if_pos (by omega), Nat.mod_eq_of_lt (show n < 10 by omega)]

/-- Digit printing of a two-digit number. -/
theorem tdc2 (fuel n : Nat) (ds : List Char) (h1 : 10 ≤ n) (h2 : n ≤ 99) (hf : 1 ≤ fuel) :
    Nat.toDigitsCore 10 (fuel + 1) n ds
      = Nat.digitChar (n / 10) :: Nat.digitChar (n % 10) :: ds := by
  obtain ⟨f, rfl⟩ : ∃ f, fuel = f + 1 := ⟨fuel - 1, by omega⟩
  rw [toDigitsCore_step, if_neg (by omega), tdc1 _ _ _ (by omega)]

/-- Digit printing of a three-digit number. -/
theorem tdc3 (fuel n : Nat) (ds : List Char) (h1 : 100 ≤ n) (h2 : n ≤ 999) (hf : 2 ≤ fuel) :
    Nat.toDigitsCore 10 (fuel + 1) n ds
      = Nat.digitChar (n / 100) :: Nat.digitChar (n / 10 % 10)
          :: Nat.digitChar (n % 10) :: ds := by
  obtain ⟨f, rfl⟩ : ∃ f, fuel = f + 1 := ⟨fuel - 1, by omega⟩
  rw [toDigitsCore_step, if_neg (by omega), tdc2 _ _ _ (by omega) (by omega) (by omega)]
  rw [Nat.div_div_eq_div_mul]

/-- Digit printing of a four-digit number. -/
theorem tdc4 (fuel n : Nat) (ds : List Char) (h1 : 1000 ≤ n) (h2 : n ≤ 9999)
    (hf : 3 ≤ fuel) :
    Nat.toDigitsCore 10 (fuel + 1) n ds
      = Nat.digitChar (n / 1000) :: Nat.digitChar (n / 100 % 10)
          :: Nat.digitChar (n / 10 % 10) :: Nat.digitChar (n % 10) :: ds := by
  obtain ⟨f, rfl⟩ : ∃ f, fuel = f + 1 := ⟨fuel - 1, by omega⟩
  rw [toDigitsCore_step, if_neg (by omega), tdc3 _ _ _ (by omega) (by omega) (by omega)]
  rw [Nat.div_div_eq_div_mul, Nat.div_div_eq_div_mul]

/-- `str(year)` is the zero-padded four digits for four-digit years. -/
theorem repr4 {y : Nat} (hy1 : 1000 ≤ y) (hy2 : y ≤ 9999) :
    (Nat.repr y).data = pad4 y := by
  have hde : ∀ v, v < 10 → Nat.digitChar v = Char.ofNat (48 + v) := by decide
  obtain ⟨f, hf⟩ : ∃ f, y = f + 3 := ⟨y - 3, by omega⟩
  show (Nat.toDigits 10 y).asString.data = pad4 y
  unfold Nat.toDigits
  have : y + 1 = (f + 3) + 1 := by omega
  rw [this, tdc4 _ _ _ (by omega) (by omega) (by omega)]
  unfold pad4 dChar
  have m0 : y / 1000 % 10 = y / 1000 := by omega
  rw [hde (y / 1000) (by omega), hde (y / 100 % 10) (by omega),
      hde (y / 10 % 10) (by omega), hde (y % 10) (by omega)]
  rw [m0]
  rfl

/-- What a successful `datetime` construction guarantees. -/
theorem mkValid?_bounds {y m d h mi : Nat} {p : PyDateTime}
    (hp : mkValid? y m d h mi = some p) :
    p = ⟨y, m, d, h, mi⟩ ∧ 1 ≤ y ∧ y ≤ 9999 ∧ 1 ≤ m ∧ m ≤ 12 ∧ 1 ≤ d
      ∧ d ≤ daysInMonth y m ∧ h ≤ 23 ∧ mi ≤ 59 := by
  unfold mkValid? at hp
  split at hp
  · next hcond =>
    simp only [Bool.and_eq_true, decide_eq_true_eq] at hcond
    cases hp
    refine ⟨rfl, ?_, ?_, ?_, ?_, ?_, ?_, ?_, ?_⟩ <;> omega
  · simp at hp

/-- `datetime` construction succeeds inside the validated ranges. -/
theorem mkValid?_mk {y m d h mi : Nat} (h1 : 1 ≤ y) (h2 : y ≤ 9999) (h3 : 1 ≤ m)
    (h4 : m ≤ 12) (h5 : 1 ≤ d) (h6 : d ≤ daysInMonth y m) (h7 : h ≤ 23) (h8 : mi ≤ 59) :
    mkValid? y m d h mi = some ⟨y, m, d, h, mi⟩ := by
  unfold mkValid?
  rw [if_pos]
  simp only [Bool.and_eq_true, decide_eq_true_eq]
  refine ⟨⟨⟨⟨⟨⟨⟨?_, ?_⟩, ?_⟩, ?_⟩, ?_⟩, ?_⟩, ?_⟩, ?_⟩ <;> omega

/-- No month has more than 31 days. -/
theorem daysInMonth_le (y m : Nat) : daysInMonth y m ≤ 31 := by
  unfold daysInMonth
  split
  · split <;> omega
  · split <;> omega

/-- C4 (amended): the three parsing rules, in order.  Rule 1 applies for
a minutes-ago marker with an embedded integer that keeps the result in
`datetime`'s range (out-of-range counts raise instead, see the error
claim).  Rule 2 applies when the LAST space-separated token parses as
`HH:MM` (the code takes `split(" ")[-1]`, not the text after the
marker).  Rule 3 treats the text as `MM-DD HH:MM` in the current year
and rolls back one year exactly when the parsed timestamp is strictly
in the future AND the rolled-back date is constructible; otherwise
(e.g. Feb 29 rolling into a non-leap year) the parse failure falls back
to `now`. -/
theorem parse_follows_rules (s : String) (now : PyDateTime) :
    (subMem "分钟前".data s.data = true →
      ∀ n, firstNum s.data = some n → n < tdMinutesBound → n ≤ toMin now →
      parse_sina_time (.str s) now = .ok (fromMin (toMin now - n)))
    ∧ (subMem "分钟前".data s.data = false → subMem "今天".data s.data = true →
      ValidDT now →
      ∀ h mi, lastHM s = some (h, mi) →
      parse_sina_time (.str s) now = .ok ⟨now.year, now.month, now.day, h, mi⟩)
    ∧ (subMem "分钟前".data s.data = false → subMem "今天".data s.data = false →
      1000 ≤ now.year → now.year ≤ 9999 →
      ∀ m d h mi, mdhmFull s.data = some (m, d, h, mi) →
      parse_sina_time (.str s) now = .ok
        (match mkValid? now.year m d h mi with
         | none => now
         | some p =>
           if dtLt now p then
             match mkValid? (now.year - 1) m d h mi with
             | some p2 => p2
             | none => now
           else p)) := by
  refine ⟨?_, ?_, ?_⟩
  · -- rule 1: minutes ago
    intro hmk n hn hb ht
    rw [parse_sina_time]
    simp only [hmk, if_true]
    simp only [hn]
    rw [if_neg (by omega)]
    have hms : minuteSub? now n = some (fromMin (toMin now - n)) := by
      unfold minuteSub?
      rw [if_neg (by omega)]
    simp only [hms]
  · -- rule 2: today HH:MM
    intro hne hto hval h mi hlast
    unfold lastHM at hlast
    obtain ⟨hbH, hbM⟩ := hmFull_bounds hlast
    obtain ⟨-, hy1, hy9, hm1, hm12, hd1, hdM, -, -⟩ := mkValid?_bounds hval
    have hd31 : now.day ≤ 31 := le_trans hdM (daysInMonth_le _ _)
    rw [parse_sina_time]
    simp only [hne, hto, Bool.false_eq_true, if_false, if_true]
    have hshape : datePrefix now ++ ' ' :: (splitSpace s.data).getLastD []
        = pad4 now.year ++ '-' :: (pad2 now.month ++ '-' :: (pad2 now.day
            ++ ' ' :: (splitSpace s.data).getLastD [])) := by
      simp [datePrefix, List.append_assoc]
    have hfull : strptimeFull (datePrefix now ++ ' ' :: (splitSpace s.data).getLastD [])
        = some (now.year, now.month, now.day, h, mi) := by
      rw [hshape]
      unfold strptimeFull
      rw [pY4_pad _ hy9]
      rw [pLit_step]
      refine pMonth_pad _ hm1 hm12 ?_
      beta_reduce
      rw [pLit_step]
      refine pDay_pad _ hd1 hd31 ?_
      beta_reduce
      rw [pWS_step]
      rw [hm_tail, hlast]
      rfl
    have hsp : strptime? (datePrefix now ++ ' ' :: (splitSpace s.data).getLastD [])
        = some ⟨now.year, now.month, now.day, h, mi⟩ := by
      unfold strptime?
      rw [hfull]
      exact mkValid?_mk hy1 hy9 hm1 hm12 hd1 hdM hbH hbM
    simp only [hsp]
  · -- rule 3: MM-DD HH:MM with year inference
    intro hne hto hy1 hy2 m d h mi hmd
    rw [parse_sina_time]
    simp only [hne, hto, Bool.false_eq_true, if_false]
    have hfull : strptimeFull ((Nat.repr now.year).data ++ '-' :: s.data)
        = some (now.year, m, d, h, mi) := by
      rw [repr4 hy1 hy2]
      unfold strptimeFull
      rw [pY4_pad _ hy2]
      rw [pLit_step]
      rw [md_tail, hmd]
      rfl
    have hsp : strptime? ((Nat.repr now.year).data ++ '-' :: s.data)
        = mkValid? now.year m d h mi := by
      unfold strptime?
      rw [hfull]
      rfl
    simp only [hsp]
    cases hv : mkValid? now.year m d h mi with
    | none => rfl
    | some p =>
      obtain ⟨hp, -⟩ := mkValid?_bounds hv
      subst hp
      by_cases hlt : dtLt now (⟨now.year, m, d, h, mi⟩ : PyDateTime) = true <;>
        cases hv2 : mkValid? (now.year - 1) m d h mi <;>
          simp [hlt, hv2]

/-- C4 counterexample: with `now = 2024-01-05 10:00`, the text
`"02-29 10:00"` parses to the valid, strictly-future 2024-02-29 10:00,
so the claim demands a rollback to 2023-02-29 10:00 (month 2, day 29 in
the prior year); the code instead hits `ValueError` in
`replace(year=2023)` and returns `now` (month 1) — and for
`"今天 14:30 更新"` the today rule demands 14:30 of now's date but the
code parses the last token `"更新"`, fails, and returns `now`. -/
theorem parse_rules_counterexample :
    parse_sina_time (.str "02-29 10:00") ⟨2024, 1, 5, 10, 0⟩ = .ok ⟨2024, 1, 5, 10, 0⟩
    ∧ mkValid? 2024 2 29 10 0 = some ⟨2024, 2, 29, 10, 0⟩
    ∧ dtLt ⟨2024, 1, 5, 10, 0⟩ ⟨2024, 2, 29, 10, 0⟩ = true
    ∧ parse_sina_time (.str "今天 14:30 更新") ⟨2024, 1, 5, 10, 0⟩
        = .ok ⟨2024, 1, 5, 10, 0⟩ := by
  refine ⟨by decide, by decide, by decide, by decide⟩

/-- Witness for `parse_follows_rules`: the spec's own examples — five
minutes ago, today 14:30, and the year-rollback date. -/
theorem parse_follows_rules_witness :
    parse_sina_time (.str "5分钟前") sampleNow = .ok ⟨2024, 6, 1, 9, 55⟩
    ∧ parse_sina_time (.str "今天 14:30") sampleNow = .ok ⟨2024, 6, 1, 14, 30⟩
    ∧ parse_sina_time (.str "12-31 10:00") ⟨2024, 1, 5, 10, 0⟩
        = .ok ⟨2023, 12, 31, 10, 0⟩ := by
  refine ⟨?_, ?_, ?_⟩
  · have h := (parse_follows_rules "5分钟前" sampleNow).1 (by decide) 5 (by decide)
      (by decide) (by decide)
    rw [h]
    decide
  · have h := (parse_follows_rules "今天 14:30" sampleNow).2.1 (by decide) (by decide)
      (by unfold ValidDT; decide) 14 30 (by decide)
    rw [h]
    rfl
  · have h := (parse_follows_rules "12-31 10:00" ⟨2024, 1, 5, 10, 0⟩).2.2 (by decide)
      (by decide) (by decide) (by decide) 12 31 10 0 (by decide)
    rw [h]
    decide

/-! ### Conditional idempotence of the cleaner (C5) -/

/-- Without an ampersand the unescape pass is the identity. -/
theorem unescU_no_amp : ∀ (fuel : Nat) (l : List Char), '&' ∉ l → unescU fuel l = l := by
  intro fuel
  induction fuel with
  | zero => intro l _; rfl
  | succ n ih =>
    intro l hl
    match l with
    | [] => rfl
    | c :: rest =>
      have hc : ¬ c = '&' := fun e => hl (e ▸ List.mem_cons_self _ _)
      rw [unescU, if_neg hc, ih rest (fun hm => hl (List.mem_cons_of_mem _ hm))]

/-- Without an ampersand `unescapeOnce` is the identity. -/
theorem unescapeOnce_no_amp {l : List Char} (h : '&' ∉ l) : unescapeOnce l = l :=
  unescU_no_amp l.length l h

/-- The unescape loop leaves a fixed point unchanged. -/
theorem unescapeFix_of_fix {l : List Char} (h : unescapeOnce l = l) :
    unescapeFix l = l := by
  unfold unescapeFix
  rw [unescapeLoop, if_pos h]

/-- Without a `<` the whole input is one text segment. -/
theorem bsSegsF_no_lt : ∀ (fuel : Nat) (l cur : List Char), (∀ c ∈ l, c ≠ '<') →
    bsSegsF fuel l cur = [cur ++ l] := by
  intro fuel
  induction fuel with
  | zero => intro l cur _; rfl
  | succ n ih =>
    intro l cur hl
    match l with
    | [] => simp [bsSegsF]
    | c :: rest =>
      rw [bsSegsF]
      rw [if_neg (hl c (List.mem_cons_self _ _))]
      rw [ih rest (cur ++ [c]) (fun x hx => hl x (List.mem_cons_of_mem _ hx))]
      simp

/-- Without markup, `get_text(strip=True)` is a plain two-sided strip. -/
theorem bsText_no_lt {l : List Char} (h : ∀ c ∈ l, c ≠ '<') :
    bsText l = pyStrip l := by
  unfold bsText
  rw [bsSegsF_no_lt _ l [] h]
  simp

/-- Stripping only discards characters. -/
theorem pyStrip_subset {c : Char} {l : List Char} (h : c ∈ pyStrip l) : c ∈ l := by
  unfold pyStrip at h
  rw [List.mem_reverse] at h
  have h2 := (List.dropWhile_sublist _).mem h
  rw [List.mem_reverse] at h2
  exact (List.dropWhile_sublist _).mem h2

/-- The head surviving a `dropWhile` fails the predicate. -/
theorem head_dropWhile {p : Char → Bool} : ∀ {l : List Char} {a : Char},
    (l.dropWhile p).head? = some a → p a = false := by
  intro l
  induction l with
  | nil => intro a h; simp at h
  | cons c rest ih =>
    intro a h
    rw [List.dropWhile_cons] at h
    split at h
    · exact ih h
    · next hc =>
      simp only [List.head?_cons, Option.some.injEq] at h
      rw [← h]
      simpa using hc

/-- `dropWhile` is the identity when the head fails the predicate. -/
theorem dropWhile_of_head {p : Char → Bool} {l : List Char}
    (h : ∀ a, l.head? = some a → p a = false) : l.dropWhile p = l := by
  cases l with
  | nil => rfl
  | cons c rest =>
    rw [List.dropWhile_cons, if_neg]
    rw [h c rfl]
    simp

/-- `dropWhile` twice is `dropWhile` once. -/
theorem dropWhile_idem {p : Char → Bool} (l : List Char) :
    (l.dropWhile p).dropWhile p = l.dropWhile p :=
  dropWhile_of_head fun _ ha => head_dropWhile ha

/-- `pyStrip` is the left strip followed by the right strip. -/
theorem pyStrip_eq (l : List Char) : pyStrip l = trimR (l.dropWhile isPySpace) := rfl

/-- The right strip keeps a prefix of its input. -/
theorem trimR_leading (l : List Char) : trimR l <+: l := by
  unfold trimR
  have := List.dropWhile_suffix (l := l.reverse) isPySpace
  rw [← List.reverse_prefix] at this
  simpa using this

/-- The right strip twice is the right strip once. -/
theorem trimR_idem (l : List Char) : trimR (trimR l) = trimR l := by
  unfold trimR
  rw [List.reverse_reverse, dropWhile_idem]

/-- Stripping twice is stripping once. -/
theorem pyStrip_idem (l : List Char) : pyStrip (pyStrip l) = pyStrip l := by
  rw [pyStrip_eq, pyStrip_eq]
  have hd : (trimR (l.dropWhile isPySpace)).dropWhile isPySpace
      = trimR (l.dropWhile isPySpace) := by
    apply dropWhile_of_head
    intro a ha
    obtain ⟨t, ht⟩ := trimR_leading (l.dropWhile isPySpace)
    apply head_dropWhile (l := l) (p := isPySpace)
    cases he : trimR (l.dropWhile isPySpace) with
    | nil => rw [he] at ha; simp at ha
    | cons c rest =>
      rw [he] at ha
      simp only [List.head?_cons, Option.some.injEq] at ha
      rw [← ht, he]
      simpa using ha
  rw [hd, trimR_idem]

/-- The collapser's output characters are spaces or input characters. -/
theorem collapseRuns_mem : ∀ (l : List Char) (c : Char),
    c ∈ collapseRuns l → c = ' ' ∨ c ∈ l := by
  intro l
  induction l using collapseRuns.induct with
  | case1 => intro c h; simp [collapseRuns] at h
  | case2 d hws =>
    intro c h
    simp only [collapseRuns, if_pos hws, List.mem_singleton] at h
    exact Or.inl h
  | case3 d hws =>
    intro c h
    simp only [collapseRuns, if_neg hws, List.mem_singleton] at h
    exact Or.inr (by simp [h])
  | case4 a b rest hwa hwb ih =>
    intro c h
    rw [collapseRuns, if_pos hwa, if_pos hwb] at h
    rcases ih c h with he | hm
    · exact Or.inl he
    · exact Or.inr (List.mem_cons_of_mem _ hm)
  | case5 a b rest hwa hwb ih =>
    intro c h
    rw [collapseRuns, if_pos hwa, if_neg hwb] at h
    rcases List.mem_cons.mp h with he | hm
    · exact Or.inl he
    · rcases ih c hm with he | hm2
      · exact Or.inl he
      · exact Or.inr (List.mem_cons_of_mem _ hm2)
  | case6 a b rest hwa ih =>
    intro c h
    rw [collapseRuns, if_neg hwa] at h
    rcases List.mem_cons.mp h with he | hm
    · exact Or.inr (by simp [he])
    · rcases ih c hm with he | hm2
      · exact Or.inl he
      · exact Or.inr (List.mem_cons_of_mem _ hm2)

/-- On a head that is not whitespace the collapser keeps the head. -/
theorem collapseRuns_cons_head {d : Char} {rest : List Char}
    (h : ¬ isPySpace d = true) : ∃ t, collapseRuns (d :: rest) = d :: t := by
  cases rest with
  | nil => exact ⟨[], by rw [collapseRuns, if_neg h]⟩
  | cons e rest' => exact ⟨collapseRuns (e :: rest'), by rw [collapseRuns, if_neg h]⟩

/-- The collapser's output is collapsed. -/
theorem collapsed_collapseRuns : ∀ (l : List Char), Collapsed (collapseRuns l) := by
  intro l
  induction l using collapseRuns.induct with
  | case1 => exact ⟨by simp [collapseRuns], by simp [collapseRuns]⟩
  | case2 d hws =>
    refine ⟨?_, ?_⟩
    · intro c hc _
      simpa [collapseRuns, if_pos hws] using hc
    · rw [collapseRuns, if_pos hws]
      simp
  | case3 d hws =>
    refine ⟨?_, ?_⟩
    · intro c hc hwc
      rw [collapseRuns, if_neg hws, List.mem_singleton] at hc
      exact absurd (hc ▸ hwc) hws
    · rw [collapseRuns, if_neg hws]
      simp
  | case4 a b rest hwa hwb ih =>
    rw [collapseRuns, if_pos hwa, if_pos hwb]
    exact ih
  | case5 a b rest hwa hwb ih =>
    obtain ⟨t, ht⟩ := collapseRuns_cons_head hwb
    rw [collapseRuns, if_pos hwa, if_neg hwb]
    refine ⟨?_, ?_⟩
    · intro c hc hwc
      rcases List.mem_cons.mp hc with he | hm
      · exact he
      · exact ih.1 c hm hwc
    · rw [ht]
      rw [List.chain'_cons]
      refine ⟨fun hcon => hwb hcon.2, ?_⟩
      rw [ht] at ih
      exact ih.2
  | case6 a b rest hwa ih =>
    rw [collapseRuns, if_neg hwa]
    refine ⟨?_, ?_⟩
    · intro c hc hwc
      rcases List.mem_cons.mp hc with he | hm
      · exact absurd (he ▸ hwc) hwa
      · exact ih.1 c hm hwc
    · rw [List.chain'_cons']
      exact ⟨fun y _ hcon => hwa hcon.1, ih.2⟩

/-- A collapsed tail stays collapsed. -/
theorem Collapsed.tail {c : Char} {l : List Char} (h : Collapsed (c :: l)) :
    Collapsed l :=
  ⟨fun x hx => h.1 x (List.mem_cons_of_mem _ hx), (List.chain'_cons'.mp h.2).2⟩

/-- A collapsed string is a fixed point of the collapser. -/
theorem collapseRuns_of_collapsed : ∀ (l : List Char), Collapsed l → collapseRuns l = l := by
  intro l
  induction l using collapseRuns.induct with
  | case1 => intro _; rfl
  | case2 d hws =>
    intro hc
    rw [collapseRuns, if_pos hws, hc.1 d (by simp) hws]
  | case3 d hws =>
    intro _
    rw [collapseRuns, if_neg hws]
  | case4 a b rest hwa hwb ih =>
    intro hc
    exact absurd ⟨hwa, hwb⟩ ((List.chain'_cons.mp hc.2).1)
  | case5 a b rest hwa hwb ih =>
    intro hc
    rw [collapseRuns, if_pos hwa, if_neg hwb, ih hc.tail, hc.1 a (by simp) hwa]
  | case6 a b rest hwa ih =>
    intro hc
    rw [collapseRuns, if_neg hwa, ih hc.tail]

/-- Collapsedness passes to contiguous substrings. -/
theorem Collapsed.within {l₁ l : List Char} (h : Collapsed l) (hi : l₁ <:+: l) :
    Collapsed l₁ :=
  ⟨fun c hc hw => h.1 c (hi.subset hc) hw, List.Chain'.infix h.2 hi⟩

/-- Stripping keeps a contiguous substring. -/
theorem pyStrip_within (l : List Char) : pyStrip l <:+: l := by
  rw [pyStrip_eq]
  exact (trimR_leading _).isInfix.trans (List.dropWhile_suffix _).isInfix

/-- C5 counterexample: `clean` is not idempotent —
`clean("&a<b>mp;")` is `"&amp;"` (tag stripping assembles a new escape),
which `clean` reduces further to `"&"`; and the cleaned output of
`"<b>x</b>&amp;lt;"` still contains `<` (a doubly-escaped bare bracket
survives as markup-like text). -/
theorem clean_not_idempotent :
    ultimate_clean_text "&a<b>mp;" = "&amp;"
    ∧ ultimate_clean_text (ultimate_clean_text "&a<b>mp;")
        ≠ ultimate_clean_text "&a<b>mp;"
    ∧ '<' ∈ (ultimate_clean_text "<b>x</b>&amp;lt;").data := by
  refine ⟨by decide, by decide, by decide⟩

/-- C5 (amended): `clean` is idempotent on every input whose cleaned
output contains neither `&` nor `<`; in general tag stripping can
assemble a new entity escape and deep escapes can re-expose a bare
bracket, so idempotence and markup-freedom fail (see the
counterexample). -/
theorem clean_conditionally_idempotent (s : String)
    (hA : '&' ∉ (ultimate_clean_text s).data)
    (hL : '<' ∉ (ultimate_clean_text s).data) :
    ultimate_clean_text (ultimate_clean_text s) = ultimate_clean_text s := by
  have hydata : (ultimate_clean_text s).data
      = pyStrip (collapseRuns (removeCtrl (bsText (unescapeFix s.data)))) := rfl
  have h1 : unescapeFix (ultimate_clean_text s).data = (ultimate_clean_text s).data :=
    unescapeFix_of_fix (unescapeOnce_no_amp hA)
  have h2 : bsText (ultimate_clean_text s).data = pyStrip (ultimate_clean_text s).data :=
    bsText_no_lt (fun c hc he => hL (he ▸ hc))
  have h3 : pyStrip (ultimate_clean_text s).data = (ultimate_clean_text s).data := by
    rw [hydata, pyStrip_idem]
  have h4 : removeCtrl (ultimate_clean_text s).data = (ultimate_clean_text s).data := by
    apply List.filter_eq_self.mpr
    intro c hc
    have hc2 : c ∈ collapseRuns (removeCtrl (bsText (unescapeFix s.data))) :=
      pyStrip_subset (hydata ▸ hc)
    rcases collapseRuns_mem _ c hc2 with he | hm
    · rw [he]; decide
    · simpa using List.of_mem_filter hm
  have h5 : collapseRuns (ultimate_clean_text s).data = (ultimate_clean_text s).data := by
    apply collapseRuns_of_collapsed
    refine Collapsed.within
      (collapsed_collapseRuns (removeCtrl (bsText (unescapeFix s.data)))) ?_
    rw [hydata]
    exact pyStrip_within _
  show String.mk (pyStrip (collapseRuns (removeCtrl (bsText
      (unescapeFix (ultimate_clean_text s).data))))) = ultimate_clean_text s
  rw [h1, h2, h3, h4, h5, h3]

/-- Witness for `clean_conditionally_idempotent`: a cleaned text with
neither `&` nor `<` left over. -/
theorem clean_conditionally_idempotent_witness :
    '&' ∉ (ultimate_clean_text " 黄金 <b>x</b> ").data
    ∧ '<' ∉ (ultimate_clean_text " 黄金 <b>x</b> ").data
    ∧ ultimate_clean_text (ultimate_clean_text " 黄金 <b>x</b> ")
        = ultimate_clean_text " 黄金 <b>x</b> " :=
  ⟨by decide, by decide,
   clean_conditionally_idempotent " 黄金 <b>x</b> " (by decide) (by decide)⟩

end GoldNews
